/-
Verification of the reconciliation engine of the GitHub-to-Jira migration
tool (`common.py`, `jira-sync.py`).  The Python source is shallowly
embedded: strings are Lean `String`s, Python dynamic (JSON-like) values are
the inductive `JVal`, fallible Python code (code that may raise) lives in
`Except String`.  The SHA-256 digest from `hashlib` is an external
collaborator and is abstracted as a function parameter `sha`; likewise
regular-expression patterns that arrive as configuration data are
abstracted by their matching semantics.  Regexes that are literal in the
source are implemented character by character, faithful to Python `re`
semantics (leftmost match, greedy/lazy as written, no re-scan of the
replacement).
-/
import Mathlib

namespace JiraSync

/-- Python whitespace characters as matched by `\s` and `str.strip`
(ASCII range; the source only ever meets ASCII whitespace). -/
def pyIsSpace (c : Char) : Bool :=
  c == ' ' || c == '\t' || c == '\n' || c == '\r' || c == '\x0b' || c == '\x0c'

/-- Leading-whitespace removal on character lists (Python `str.lstrip`). -/
def stripL (cs : List Char) : List Char := cs.dropWhile pyIsSpace

/-- Trailing-whitespace removal on character lists (Python `str.rstrip`). -/
def stripR (cs : List Char) : List Char := ((cs.reverse).dropWhile pyIsSpace).reverse

/-- Both-sides whitespace removal on character lists (Python `str.strip`). -/
def stripChars (cs : List Char) : List Char := stripR (stripL cs)

/-- Python `str.strip`. -/
def pyStrip (s : String) : String := String.mk (stripChars s.data)

/-- Python `str.lstrip`. -/
def pyLStrip (s : String) : String := String.mk (stripL s.data)

/-- Python `str.lower` (ASCII case folding; the tool compares component
names which are ASCII). -/
def pyLower (s : String) : String := String.mk (s.data.map Char.toLower)

/-- Python `text.split("\n")` on character lists. -/
def splitNlChars : List Char → List (List Char)
  | [] => [[]]
  | c :: cs =>
    if c = '\n' then [] :: splitNlChars cs
    else
      match splitNlChars cs with
      | [] => [[c]]
      | h :: t => (c :: h) :: t

/-- Python `text.split("\n")`. -/
def splitNl (s : String) : List String := (splitNlChars s.data).map String.mk

/-- Python `"\n".join(parts)`. -/
def joinNl : List String → String
  | [] => ""
  | [s] => s
  | s :: rest => s ++ "\n" ++ joinNl rest

theorem splitNlChars_ne_nil (cs : List Char) : splitNlChars cs ≠ [] := by
  induction cs with
  | nil => simp [splitNlChars]
  | cons c cs ih =>
    simp only [splitNlChars]
    split
    · simp
    · cases h : splitNlChars cs with
      | nil => exact absurd h ih
      | cons a b => simp

theorem splitNlChars_cons_newline (cs : List Char) :
    splitNlChars ('\n' :: cs) = [] :: splitNlChars cs := by
  simp [splitNlChars]

theorem splitNlChars_cons_other (c : Char) (cs : List Char) (hc : ¬ c = '\n') :
    splitNlChars (c :: cs) =
      (c :: (splitNlChars cs).headD []) :: (splitNlChars cs).tail := by
  simp only [splitNlChars, if_neg hc]
  cases h : splitNlChars cs with
  | nil => exact absurd h (splitNlChars_ne_nil cs)
  | cons a b => simp

theorem splitNlChars_append_newline (xs ys : List Char) :
    splitNlChars (xs ++ '\n' :: ys) = splitNlChars xs ++ splitNlChars ys := by
  induction xs with
  | nil => simp [splitNlChars_cons_newline, splitNlChars]
  | cons c cs ih =>
    by_cases hc : c = '\n'
    · subst hc
      rw [List.cons_append, splitNlChars_cons_newline, splitNlChars_cons_newline, ih,
        List.cons_append]
    · rw [List.cons_append, splitNlChars_cons_other c _ hc, splitNlChars_cons_other c cs hc, ih]
      cases h : splitNlChars cs with
      | nil => exact absurd h (splitNlChars_ne_nil cs)
      | cons a b => simp

/-- A JSON-like model of the dynamic Python values handled by the tool
(parsed API responses, ADF documents). -/
inductive JVal where
  | jnull
  | jbool (b : Bool)
  | jnum (n : Int)
  | jstr (s : String)
  | jarr (items : List JVal)
  | jobj (fields : List (String × JVal))

/-- Python truthiness of a `JVal`. -/
def JVal.truthy : JVal → Bool
  | .jnull => false
  | .jbool b => b
  | .jnum n => !(n == 0)
  | .jstr s => !(s == "")
  | .jarr items => !items.isEmpty
  | .jobj fields => !fields.isEmpty

/-- Python `isinstance(v, dict)`. -/
def JVal.isObj : JVal → Bool
  | .jobj _ => true
  | _ => false

/-- Python `v == s` for a string literal `s` (a non-string compares unequal). -/
def JVal.isStrVal : JVal → String → Bool
  | .jstr t, s => t == s
  | _, _ => false

/-- First-key lookup in an association list (Python `dict` keys are unique;
the model keeps the first binding). -/
def jlookup (fields : List (String × JVal)) (key : String) : Option JVal :=
  match fields with
  | [] => none
  | (k, v) :: rest => if k = key then some v else jlookup rest key

/-- Python `v.get(key, dflt)`: raises `AttributeError` when `v` is not a
dict, otherwise total. -/
def pyGet (v : JVal) (key : String) (dflt : JVal) : Except String JVal :=
  match v with
  | .jobj fields => .ok ((jlookup fields key).getD dflt)
  | _ => .error ("AttributeError: object has no attribute get")

/-- Python iteration `for x in v`: lists yield their items, strings yield
one-character strings, dicts yield their keys, everything else raises
`TypeError`. -/
def pyIter : JVal → Except String (List JVal)
  | .jarr items => .ok items
  | .jstr s => .ok (s.data.map (fun c => .jstr (String.mk [c])))
  | .jobj fields => .ok (fields.map (fun kv => .jstr kv.1))
  | _ => .error ("TypeError: object is not iterable")

/-- Python `"".join(parts)`: raises `TypeError` on a non-string item. -/
def pyJoinStr : List JVal → Except String String
  | [] => .ok ""
  | [.jstr s] => .ok s
  | .jstr s :: rest => (pyJoinStr rest).map (fun r => s ++ r)
  | _ :: _ => .error ("TypeError: sequence item: expected str instance")

/-- Lowercase hexadecimal digit, the character class `[0-9a-f]`. -/
def isHexLower (c : Char) : Bool :=
  c.isDigit || (decide ('a' ≤ c) && decide (c ≤ 'f'))

/-- The part of the Hash pattern after the literal `Hash:`: one or more
whitespace characters, then exactly 64 lowercase hex digits, then the end. -/
def matchHashTail (rest : List Char) : Option String :=
  if decide (1 ≤ (rest.takeWhile pyIsSpace).length) &&
      ((rest.dropWhile pyIsSpace).length == 64) &&
      (rest.dropWhile pyIsSpace).all isHexLower then
    some (String.mk (rest.dropWhile pyIsSpace))
  else none

/-- `re.match(r"^Hash:\s+([0-9a-f]{64})$", line.strip())`, returning group 1.
Since `[0-9a-f]` and `\s` are disjoint character classes, the regex matches
exactly when the stripped line is `Hash:` + one or more whitespace
characters + exactly 64 lowercase hex digits. -/
def matchHashLine (line : String) : Option String :=
  match stripChars line.data with
  | 'H' :: 'a' :: 's' :: 'h' :: ':' :: rest => matchHashTail rest
  | _ => none

/-- Loop body of `extract_hash_from_adf` over the top-level ADF nodes
(`common.py` lines 26-36). -/
def extract_loop : List JVal → Except String (Option String)
  | [] => .ok none
  | node :: rest => do
    let ty ← pyGet node ("type") .jnull
    if !(ty.isStrVal ("paragraph")) then
      extract_loop rest
    else
      let contentv ← pyGet node ("content") (.jarr [])
      let children ← pyIter contentv
      let parts ← collect_text_parts children
      let line ← pyJoinStr parts
      match matchHashLine line with
      | some h => .ok (some h)
      | none => extract_loop rest
where
  /-- The inner loop gathering the `text` of the `type == "text"` runs of a
  paragraph node. -/
  collect_text_parts : List JVal → Except String (List JVal)
    | [] => .ok []
    | child :: rest => do
      let ty ← pyGet child ("type") .jnull
      if ty.isStrVal ("text") then
        let tx ← pyGet child ("text") (.jstr "")
        let r ← collect_text_parts rest
        .ok (tx :: r)
      else
        collect_text_parts rest

/-- `common.py` `extract_hash_from_adf`: walk ADF paragraph nodes and
return the first `Hash: <64 hex>` fingerprint; `.ok none` when the
description is falsy or not a dict or no paragraph matches; `.error` when
Python would raise on a malformed nested structure. -/
def extract_hash_from_adf (description : JVal) : Except String (Option String) :=
  if !description.truthy || !description.isObj then .ok none
  else do
    let contentv ← pyGet description ("content") (.jarr [])
    let nodes ← pyIter contentv
    extract_loop nodes

/-- `common.py` `compute_body_hash`: an absent body hashes as the empty
string.  The SHA-256 digest itself (`hashlib`, an external collaborator) is
the parameter `sha`. -/
def compute_body_hash (sha : String → String) (body : Option String) : String :=
  sha (body.getD "")

/-- A single text run of the destination's ADF document model. -/
def adfTextNode (s : String) : JVal :=
  .jobj [("type", .jstr ("text")), ("text", .jstr s)]

/-- A one-run paragraph of the destination's ADF document model. -/
def adfParagraph (s : String) : JVal :=
  .jobj [("type", .jstr ("paragraph")), ("content", .jarr [adfTextNode s])]

/-- The destination tracker renders a plain-text description as an ADF
document whose paragraphs are the text's lines (spec section 4.2's nested
block structure); this is the document against which extraction runs. -/
def adf_of_lines (lines : List String) : JVal :=
  .jobj [("content", .jarr (lines.map adfParagraph))]

theorem splitNl_append_newline (a b : String) :
    splitNl (a ++ "\n" ++ b) = splitNl a ++ splitNl b := by
  unfold splitNl
  rw [String.data_append, String.data_append,
    show ("\n" : String).data = ['\n'] from rfl, List.append_assoc, List.singleton_append,
    splitNlChars_append_newline, List.map_append]

theorem splitNl_joinNl : ∀ L : List String, L ≠ [] →
    splitNl (joinNl L) = (L.map splitNl).flatten
  | [], h => absurd rfl h
  | [s], _ => by simp [joinNl]
  | s :: t :: rest, _ => by
    rw [show joinNl (s :: t :: rest) = s ++ "\n" ++ joinNl (t :: rest) from rfl,
      splitNl_append_newline, splitNl_joinNl (t :: rest) (by simp)]
    simp

theorem extract_loop_adf (L : List String) :
    extract_loop (L.map adfParagraph) = .ok (L.findSome? matchHashLine) := by
  induction L with
  | nil => rfl
  | cons l rest ih =>
    have hstep : extract_loop (adfParagraph l :: rest.map adfParagraph) =
        match matchHashLine l with
        | some h => .ok (some h)
        | none => extract_loop (rest.map adfParagraph) := rfl
    rw [List.map_cons, hstep, List.findSome?_cons]
    cases matchHashLine l with
    | none => exact ih
    | some h => rfl

/-- Extraction over the document model of a line list returns the first
line matching the Hash pattern. -/
theorem extract_adf_of_lines (L : List String) :
    extract_hash_from_adf (adf_of_lines L) = .ok (L.findSome? matchHashLine) := by
  have h : extract_hash_from_adf (adf_of_lines L) = extract_loop (L.map adfParagraph) := rfl
  rw [h, extract_loop_adf]

theorem dropWhile_append_single (p : Char → Bool) (xs : List Char) (c : Char)
    (hc : p c = false) : ∃ ys, List.dropWhile p (xs ++ [c]) = ys ++ [c] := by
  induction xs with
  | nil => exact ⟨[], by simp [List.dropWhile_cons, hc]⟩
  | cons x xs ih =>
    rcases ih with ⟨ys, hys⟩
    by_cases hx : p x = true
    · exact ⟨ys, by simp [List.dropWhile_cons, hx, hys]⟩
    · exact ⟨x :: xs, by simp [List.dropWhile_cons, hx]⟩

theorem stripR_cons_of_head (c : Char) (cs : List Char) (hc : pyIsSpace c = false) :
    ∃ ds, stripR (c :: cs) = c :: ds := by
  unfold stripR
  rw [show (c :: cs).reverse = cs.reverse ++ [c] by simp]
  rcases dropWhile_append_single pyIsSpace cs.reverse c hc with ⟨ys, hys⟩
  exact ⟨ys.reverse, by rw [hys]; simp⟩

theorem stripChars_cons_of_head (c : Char) (cs : List Char) (hc : pyIsSpace c = false) :
    ∃ ds, stripChars (c :: cs) = c :: ds := by
  unfold stripChars stripL
  rw [List.dropWhile_cons, if_neg (by simp [hc])]
  exact stripR_cons_of_head c cs hc

theorem stripR_of_last (xs : List Char) (c : Char) (hc : pyIsSpace c = false) :
    stripR (xs ++ [c]) = xs ++ [c] := by
  unfold stripR
  rw [List.reverse_append, show ([c] : List Char).reverse = [c] from rfl,
    List.singleton_append, List.dropWhile_cons, if_neg (by simp [hc])]
  simp

theorem pyIsSpace_of_isHexLower (c : Char) (h : isHexLower c = true) :
    pyIsSpace c = false := by
  by_contra hc
  have hc' : pyIsSpace c = true := by revert hc; cases pyIsSpace c <;> simp
  simp only [pyIsSpace, Bool.or_eq_true, beq_iff_eq] at hc'
  rcases hc' with ((((h1 | h1) | h1) | h1) | h1) | h1 <;> subst h1 <;>
    exact absurd h (by decide)

/-- A valid fingerprint: exactly 64 lowercase hexadecimal characters. -/
def validDigest (d : String) : Bool :=
  (d.data.length == 64) && d.data.all isHexLower

/-- The footer line `Hash: <digest>` is matched by the extraction pattern
and yields exactly the digest. -/
theorem matchHashLine_footer (d : String) (hd : validDigest d = true) :
    matchHashLine ("Hash: " ++ d) = some d := by
  have h64 : d.data.length = 64 := by
    simp only [validDigest, Bool.and_eq_true, beq_iff_eq] at hd
    exact hd.1
  have hall : d.data.all isHexLower = true := by
    simp only [validDigest, Bool.and_eq_true] at hd
    exact hd.2
  have hhex : ∀ c ∈ d.data, isHexLower c = true := by
    simpa [List.all_eq_true] using hall
  obtain ⟨e, es, hes⟩ : ∃ e es, d.data = e :: es := by
    cases hdd : d.data with
    | nil => rw [hdd] at h64; simp at h64
    | cons e es => exact ⟨e, es, rfl⟩
  obtain ⟨L, b, hLb⟩ : ∃ L b, d.data = L ++ [b] := by
    rcases List.eq_nil_or_concat d.data with h | ⟨L, b, h⟩
    · rw [h] at h64; simp at h64
    · exact ⟨L, b, by rw [h]; simp⟩
  have hbhex : isHexLower b = true := hhex b (by rw [hLb]; simp)
  have hehex : isHexLower e = true := hhex e (by rw [hes]; simp)
  have hdata : ("Hash: " ++ d).data = 'H' :: 'a' :: 's' :: 'h' :: ':' :: ' ' :: d.data := by
    rw [String.data_append]; rfl
  have hstrip : stripChars ('H' :: 'a' :: 's' :: 'h' :: ':' :: ' ' :: d.data) =
      'H' :: 'a' :: 's' :: 'h' :: ':' :: ' ' :: d.data := by
    unfold stripChars stripL
    rw [List.dropWhile_cons, if_neg (by simp [pyIsSpace])]
    rw [show 'H' :: 'a' :: 's' :: 'h' :: ':' :: ' ' :: d.data =
        ('H' :: 'a' :: 's' :: 'h' :: ':' :: ' ' :: L) ++ [b] by rw [hLb]; simp]
    rw [stripR_of_last _ b (pyIsSpace_of_isHexLower b hbhex)]
  have hws : (' ' :: d.data).takeWhile pyIsSpace = [' '] := by
    rw [List.takeWhile_cons, if_pos (by decide), hes, List.takeWhile_cons,
      if_neg (by simp [pyIsSpace_of_isHexLower e hehex])]
  have hbody : (' ' :: d.data).dropWhile pyIsSpace = d.data := by
    rw [List.dropWhile_cons, if_pos (by decide), hes, List.dropWhile_cons,
      if_neg (by simp [pyIsSpace_of_isHexLower e hehex]), ← hes]
  unfold matchHashLine
  rw [hdata, hstrip]
  show matchHashTail (' ' :: d.data) = some d
  unfold matchHashTail
  rw [hws, hbody]
  rw [if_pos (by simp [h64, hall])]

/-- A line whose first character is not whitespace and not `H` never
matches the Hash pattern. -/
theorem matchHashLine_of_head (line : String) (c : Char) (cs : List Char)
    (hline : line.data = c :: cs) (hsp : pyIsSpace c = false) (hH : c ≠ 'H') :
    matchHashLine line = none := by
  unfold matchHashLine
  rw [hline]
  rcases stripChars_cons_of_head c cs hsp with ⟨ds, hds⟩
  rw [hds]
  split
  · rename_i rest heq
    injection heq with h1 _
    exact absurd h1 hH
  · rfl

/-! ### Markup Transcoder (`jira-sync.py` lines 178-271)

Each `re.sub` call of `_convert_inline_markup` is modelled by a dedicated
left-to-right scanner faithful to Python `re` semantics: find the leftmost
match, emit the replacement, continue scanning the source after the
matched span (the replacement is never re-scanned), advance one character
when no match starts at the current position. -/

/-- Split before the first occurrence of `stop`: `some (before, after)`
with the input equal to `before ++ stop :: after`, or `none` when `stop`
does not occur.  This is the deterministic core of `[^x]*` / `[^x]+`
followed by the literal `x`. -/
def breakAt (stop : Char) : List Char → Option (List Char × List Char)
  | [] => none
  | c :: cs =>
    if c = stop then some ([], cs)
    else (breakAt stop cs).map (fun p => (c :: p.1, p.2))

/-- Generic `re.sub` scanning engine.  `tryAt` attempts a match at the
current position and returns the replacement together with the number of
source characters consumed beyond the first.  The fuel starts at the input
length, which always suffices because every step consumes at least one
character. -/
def scanSubF (tryAt : List Char → Option (List Char × Nat)) : Nat → List Char → List Char
  | _, [] => []
  | 0, rest => rest
  | fuel + 1, c :: cs =>
    match tryAt (c :: cs) with
    | some (repl, extra) => repl ++ scanSubF tryAt fuel (cs.drop extra)
    | none => c :: scanSubF tryAt fuel cs

/-- One full `re.sub` pass over a character list. -/
def scanSub (tryAt : List Char → Option (List Char × Nat)) (s : List Char) : List Char :=
  scanSubF tryAt s.length s

/-- Match of `!\[([^\]]*)\]\(([^)]+)\)` at the current position, with
replacement `!\2!`. -/
def tryImage : List Char → Option (List Char × Nat)
  | '!' :: '[' :: rest =>
    match breakAt ']' rest with
    | none => none
    | some (alt, r2) =>
      match r2 with
      | '(' :: r3 =>
        match breakAt ')' r3 with
        | none => none
        | some (url, _) =>
          if url.isEmpty then none
          else some ('!' :: (url ++ ['!']), 4 + alt.length + url.length)
      | _ => none
  | _ => none

/-- Match of `\[([^\]]+)\]\(([^)]+)\)` at the current position, with
replacement `[\1|\2]`. -/
def tryLink : List Char → Option (List Char × Nat)
  | '[' :: rest =>
    match breakAt ']' rest with
    | none => none
    | some (txt, r2) =>
      if txt.isEmpty then none
      else
        match r2 with
        | '(' :: r3 =>
          match breakAt ')' r3 with
          | none => none
          | some (url, _) =>
            if url.isEmpty then none
            else some ('[' :: (txt ++ '|' :: (url ++ [']'])), 3 + txt.length + url.length)
        | _ => none
  | _ => none

/-- First occurrence of the two-character run `ch ch`: `some (before,
after)` with the input equal to `before ++ ch :: ch :: after` and `before`
minimal.  This is the lazy `(.+?)` search for the closing double marker. -/
def findDouble (ch : Char) : List Char → Option (List Char × List Char)
  | c1 :: c2 :: rest =>
    if c1 = ch ∧ c2 = ch then some ([], rest)
    else (findDouble ch (c2 :: rest)).map (fun p => (c1 :: p.1, p.2))
  | _ => none

/-- Match of `\*\*(.+?)\*\*` at the current position, replacement `*\1*`. -/
def tryBold : List Char → Option (List Char × Nat)
  | '*' :: '*' :: c :: cs =>
    match findDouble '*' cs with
    | none => none
    | some (pre, _) => some ('*' :: ((c :: pre) ++ ['*']), 4 + pre.length)
  | _ => none

/-- Match of `~~(.+?)~~` at the current position, replacement `-\1-`. -/
def tryStrike : List Char → Option (List Char × Nat)
  | '~' :: '~' :: c :: cs =>
    match findDouble '~' cs with
    | none => none
    | some (pre, _) => some ('-' :: ((c :: pre) ++ ['-']), 4 + pre.length)
  | _ => none

/-- Lazy search for the closing `(?<!\*)\*(?!\*)` of the italic pattern:
a `*` whose preceding character (`pc`) is not `*` and whose following
character is not `*`. -/
def findItalicClose (pc : Char) : List Char → Option (List Char × List Char)
  | c :: cs =>
    if c = '*' ∧ pc ≠ '*' ∧ cs.head? ≠ some '*' then some ([], cs)
    else (findItalicClose c cs).map (fun p => (c :: p.1, p.2))
  | [] => none

/-- Match of `(?<!\*)\*(?!\*)(.+?)(?<!\*)\*(?!\*)` at the current
position, replacement `_\1_`; `prev` is the source character before the
current position (`none` at the start of the string). -/
def tryItalic (prev : Option Char) : List Char → Option (List Char × Nat)
  | '*' :: c0 :: cs0 =>
    if prev = some '*' ∨ c0 = '*' then none
    else
      match findItalicClose c0 cs0 with
      | none => none
      | some (pre, _) => some ('_' :: ((c0 :: pre) ++ ['_']), 2 + pre.length)
  | _ => none

/-- The italic pass needs the lookbehind character, so it carries the
previous source character through the scan; after a match the previous
character is the closing `*` of the matched span. -/
def subItalicF : Nat → Option Char → List Char → List Char
  | _, _, [] => []
  | 0, _, rest => rest
  | fuel + 1, prev, c :: cs =>
    match tryItalic prev (c :: cs) with
    | some (repl, extra) => repl ++ subItalicF fuel (some '*') (cs.drop extra)
    | none => c :: subItalicF fuel (some c) cs

/-- The italic `re.sub` pass. -/
def subItalic (s : List Char) : List Char := subItalicF s.length none s

/-- Match of `` `([^`]+)` `` at the current position, replacement
`{{\1}}`. -/
def tryCode : List Char → Option (List Char × Nat)
  | '`' :: rest =>
    match breakAt '`' rest with
    | none => none
    | some (content, _) =>
      if content.isEmpty then none
      else some ('\x7b' :: '\x7b' :: (content ++ ['\x7d', '\x7d']), 1 + content.length)
  | _ => none

/-- `jira-sync.py` `_convert_inline_markup`: the six substitutions in
source order (images, links, bold, strikethrough, italic, inline code). -/
def _convert_inline_markup (text : String) : String :=
  let s1 := scanSub tryImage text.data
  let s2 := scanSub tryLink s1
  let s3 := scanSub tryBold s2
  let s4 := scanSub tryStrike s3
  let s5 := subItalic s4
  let s6 := scanSub tryCode s5
  String.mk s6

/-- `re.match(r"^(#{1,6})\s+(.*)", line)`: heading level and content. -/
def tryHeader (line : String) : Option (Nat × String) :=
  let cs := line.data
  let hashes := cs.takeWhile (fun c => c == '#')
  let rest := cs.dropWhile (fun c => c == '#')
  let ws := rest.takeWhile pyIsSpace
  if 1 ≤ hashes.length ∧ hashes.length ≤ 6 ∧ 1 ≤ ws.length then
    some (hashes.length, String.mk (rest.dropWhile pyIsSpace))
  else none

/-- `re.match(r"^(\s*)[-*]\s+\[( )\]\s*(.*)", line)`: indentation width
and content of an unchecked task item. -/
def tryTaskUnchecked (line : String) : Option (Nat × String) :=
  let cs := line.data
  let ind := cs.takeWhile pyIsSpace
  match cs.dropWhile pyIsSpace with
  | b :: r1 =>
    if b = '-' ∨ b = '*' then
      let ws := r1.takeWhile pyIsSpace
      match r1.dropWhile pyIsSpace with
      | '[' :: ' ' :: ']' :: r2 =>
        if 1 ≤ ws.length then some (ind.length, String.mk (r2.dropWhile pyIsSpace))
        else none
      | _ => none
    else none
  | [] => none

/-- `re.match(r"^(\s*)[-*]\s+\[[xX]\]\s*(.*)", line)`. -/
def tryTaskChecked (line : String) : Option (Nat × String) :=
  let cs := line.data
  let ind := cs.takeWhile pyIsSpace
  match cs.dropWhile pyIsSpace with
  | b :: r1 =>
    if b = '-' ∨ b = '*' then
      let ws := r1.takeWhile pyIsSpace
      match r1.dropWhile pyIsSpace with
      | '[' :: x :: ']' :: r2 =>
        if (x = 'x' ∨ x = 'X') ∧ 1 ≤ ws.length then
          some (ind.length, String.mk (r2.dropWhile pyIsSpace))
        else none
      | _ => none
    else none
  | [] => none

/-- `re.match(r"^(\s*)[-*]\s+(.*)", line)`. -/
def tryUl (line : String) : Option (Nat × String) :=
  let cs := line.data
  let ind := cs.takeWhile pyIsSpace
  match cs.dropWhile pyIsSpace with
  | b :: r1 =>
    if b = '-' ∨ b = '*' then
      if 1 ≤ (r1.takeWhile pyIsSpace).length then
        some (ind.length, String.mk (r1.dropWhile pyIsSpace))
      else none
    else none
  | [] => none

/-- `re.match(r"^(\s*)\d+\.\s+(.*)", line)`. -/
def tryOl (line : String) : Option (Nat × String) :=
  let cs := line.data
  let ind := cs.takeWhile pyIsSpace
  let r0 := cs.dropWhile pyIsSpace
  let digits := r0.takeWhile Char.isDigit
  match r0.dropWhile Char.isDigit with
  | '.' :: r1 =>
    if 1 ≤ digits.length ∧ 1 ≤ (r1.takeWhile pyIsSpace).length then
      some (ind.length, String.mk (r1.dropWhile pyIsSpace))
    else none
  | _ => none

/-- `re.match(r"^---+\s*$", line)`. -/
def tryHr (line : String) : Bool :=
  let cs := line.data
  decide (3 ≤ (cs.takeWhile (fun c => c == '-')).length) &&
    (cs.dropWhile (fun c => c == '-')).all pyIsSpace

/-- One non-fence line of `markdown_to_jira_wiki`: the classifications are
tried in source order, first match wins. -/
def convertRegularLine (line : String) : String :=
  match tryHeader line with
  | some (level, content) => "h" ++ toString level ++ ". " ++ _convert_inline_markup content
  | none =>
  match tryTaskUnchecked line with
  | some (ind, content) =>
    String.mk (List.replicate (ind / 2 + 1) '*') ++ " (x) " ++ _convert_inline_markup content
  | none =>
  match tryTaskChecked line with
  | some (ind, content) =>
    String.mk (List.replicate (ind / 2 + 1) '*') ++ " (/) " ++ _convert_inline_markup content
  | none =>
  match tryUl line with
  | some (ind, content) =>
    String.mk (List.replicate (ind / 2 + 1) '*') ++ " " ++ _convert_inline_markup content
  | none =>
  match tryOl line with
  | some (ind, content) =>
    String.mk (List.replicate (ind / 2 + 1) '#') ++ " " ++ _convert_inline_markup content
  | none =>
  if tryHr line then "----" else _convert_inline_markup line

/-- `line.strip().startswith("```")`. -/
def isFenceLine (line : String) : Bool :=
  match stripChars line.data with
  | '`' :: '`' :: '`' :: _ => true
  | _ => false

/-- `line.strip()[3:].strip()`, the language tag of an opening fence. -/
def fenceLang (line : String) : String :=
  match stripChars line.data with
  | '`' :: '`' :: '`' :: rest => String.mk (stripChars rest)
  | _ => ""

/-- The line loop of `markdown_to_jira_wiki` with its fenced-code-block
flag. -/
def mdLoop : Bool → List String → List String
  | _, [] => []
  | inCode, line :: rest =>
    if isFenceLine line then
      if !inCode then
        (if fenceLang line ≠ "" then "\x7bcode:" ++ fenceLang line ++ "\x7d"
         else "\x7bcode\x7d") :: mdLoop true rest
      else "\x7bcode\x7d" :: mdLoop false rest
    else if inCode then
      line :: mdLoop true rest
    else
      convertRegularLine line :: mdLoop false rest

/-- `jira-sync.py` `markdown_to_jira_wiki`. -/
def markdown_to_jira_wiki (text : String) : String :=
  if text = "" then "" else joinNl (mdLoop false (splitNl text))

/-- `jira-sync.py` `build_jira_description`: converted body, blank line,
rule, attribution line, `Hash:` footer, joined with newlines. -/
def build_jira_description (sha : String → String) (github_body : Option String)
    (github_url : String) : String :=
  let body_hash := compute_body_hash sha github_body
  let converted := markdown_to_jira_wiki (github_body.getD "")
  let parts := (if converted ≠ "" then [converted] else []) ++
    ["", "----", "Migrated from GitHub issue: [" ++ github_url ++ "]",
      "Hash: " ++ body_hash]
  joinNl parts

instance {ε α : Type} [DecidableEq ε] [DecidableEq α] : DecidableEq (Except ε α) :=
  fun a b =>
  match a, b with
  | .error e1, .error e2 =>
    if h : e1 = e2 then isTrue (by rw [h])
    else isFalse (by intro hc; injection hc; contradiction)
  | .ok v1, .ok v2 =>
    if h : v1 = v2 then isTrue (by rw [h])
    else isFalse (by intro hc; injection hc; contradiction)
  | .error _, .ok _ => isFalse (by intro hc; injection hc)
  | .ok _, .error _ => isFalse (by intro hc; injection hc)

theorem splitNlChars_no_nl : ∀ cs : List Char, (∀ c ∈ cs, ¬ c = '\n') →
    splitNlChars cs = [cs]
  | [], _ => rfl
  | c :: cs, h => by
    rw [splitNlChars_cons_other c cs (h c (by simp)),
      splitNlChars_no_nl cs (fun x hx => h x (by simp [hx]))]
    rfl

/-- A newline-free string is its own single line. -/
theorem splitNl_single (s : String) (h : ∀ c ∈ s.data, ¬ c = '\n') :
    splitNl s = [s] := by
  unfold splitNl
  rw [splitNlChars_no_nl s.data h]
  rfl

theorem isHexLower_ne_nl (c : Char) (h : isHexLower c = true) : ¬ c = '\n' := by
  intro hc
  subst hc
  exact absurd h (by decide)

theorem matchHashLine_empty : matchHashLine "" = none := rfl

theorem matchHashLine_rule : matchHashLine "----" = none := by decide

/-- The attribution line starts with `M`, so it never matches the Hash
pattern (for any URL). -/
theorem matchHashLine_attribution (url : String) :
    matchHashLine ("Migrated from GitHub issue: [" ++ url ++ "]") = none := by
  apply matchHashLine_of_head _ 'M'
    ("igrated from GitHub issue: [".data ++ (url.data ++ (']' :: [])))
  · rw [String.data_append, String.data_append]
    rfl
  · decide
  · decide

theorem attribution_no_nl (url : String) (hu : ∀ c ∈ url.data, ¬ c = '\n') :
    ∀ c ∈ ("Migrated from GitHub issue: [" ++ url ++ "]").data, ¬ c = '\n' := by
  have h1 : ∀ c ∈ ("Migrated from GitHub issue: [" : String).data, ¬ c = '\n' := by decide
  have h2 : ∀ c ∈ ("]" : String).data, ¬ c = '\n' := by decide
  intro c hc
  rw [String.data_append, String.data_append] at hc
  simp only [List.mem_append] at hc
  rcases hc with (hc | hc) | hc
  · exact h1 c hc
  · exact hu c hc
  · exact h2 c hc

theorem footer_no_nl (d : String) (hd : validDigest d = true) :
    ∀ c ∈ ("Hash: " ++ d).data, ¬ c = '\n' := by
  have h1 : ∀ c ∈ ("Hash: " : String).data, ¬ c = '\n' := by decide
  intro c hc
  rw [String.data_append] at hc
  simp only [List.mem_append] at hc
  rcases hc with hc | hc
  · exact h1 c hc
  · have hall : d.data.all isHexLower = true := by
      simp only [validDigest, Bool.and_eq_true] at hd
      exact hd.2
    have : isHexLower c = true := by
      rw [List.all_eq_true] at hall
      exact hall c hc
    exact isHexLower_ne_nl c this

/-- C1 (amended): round-trip of fingerprint embedding.  For every body and
every hash function whose digest is 64 lowercase hex characters, provided
no line of the converted text itself matches the Hash pattern and the URL
contains no newline, extracting the fingerprint from the ADF rendering of
the built description returns exactly the embedded digest. -/
theorem C1_embed_extract_roundtrip (sha : String → String) (body : Option String)
    (url : String)
    (hd : validDigest (sha (body.getD "")) = true)
    (ht : ∀ l ∈ splitNl (markdown_to_jira_wiki (body.getD "")), matchHashLine l = none)
    (hu : ∀ c ∈ url.data, ¬ c = '\n') :
    extract_hash_from_adf (adf_of_lines (splitNl (build_jira_description sha body url))) =
      .ok (some (sha (body.getD ""))) := by
  rw [extract_adf_of_lines]
  have hparts : build_jira_description sha body url =
      joinNl ((if markdown_to_jira_wiki (body.getD "") ≠ "" then
          [markdown_to_jira_wiki (body.getD "")] else []) ++
        ["", "----", "Migrated from GitHub issue: [" ++ url ++ "]",
          "Hash: " ++ sha (body.getD "")]) := rfl
  rw [hparts, splitNl_joinNl _ (by
    intro hnil
    rcases List.append_eq_nil.mp hnil with ⟨_, h2⟩
    simp at h2)]
  have hattr : splitNl ("Migrated from GitHub issue: [" ++ url ++ "]") =
      ["Migrated from GitHub issue: [" ++ url ++ "]"] :=
    splitNl_single _ (attribution_no_nl url hu)
  have hfootline : splitNl ("Hash: " ++ sha (body.getD "")) =
      ["Hash: " ++ sha (body.getD "")] :=
    splitNl_single _ (footer_no_nl _ hd)
  have hfoot : List.findSome? matchHashLine
      ("" :: "----" :: ("Migrated from GitHub issue: [" ++ url ++ "]") ::
        ("Hash: " ++ sha (body.getD "")) :: []) = some (sha (body.getD "")) := by
    simp only [List.findSome?_cons, matchHashLine_empty, matchHashLine_rule,
      matchHashLine_attribution, matchHashLine_footer _ hd]
  by_cases hc : markdown_to_jira_wiki (body.getD "") = ""
  · rw [if_neg (by simp [hc])]
    simp only [List.map_cons, List.map_nil, List.nil_append, hattr, hfootline]
    rw [show splitNl "" = [""] from rfl, show splitNl "----" = ["----"] from rfl]
    simpa using hfoot
  · rw [if_pos hc]
    simp only [List.map_cons, List.map_nil, List.map_append, hattr, hfootline,
      List.cons_append, List.nil_append]
    rw [show splitNl "" = [""] from rfl, show splitNl "----" = ["----"] from rfl]
    have hflat : (splitNl (markdown_to_jira_wiki (body.getD "")) ::
        ([""] : List String) :: ["----"] ::
        ["Migrated from GitHub issue: [" ++ url ++ "]"] ::
        [["Hash: " ++ sha (body.getD "")]]).flatten =
        splitNl (markdown_to_jira_wiki (body.getD "")) ++
          ("" :: "----" :: ("Migrated from GitHub issue: [" ++ url ++ "]") ::
            ("Hash: " ++ sha (body.getD "")) :: []) := by
      simp
    rw [hflat, List.findSome?_append, List.findSome?_eq_none_iff.mpr ht, hfoot,
      Option.none_or]

/-- Sixty-four `a` characters: a syntactically valid digest. -/
def hexA64 : String := String.mk (List.replicate 64 'a')

/-- Sixty-four `b` characters: a syntactically valid digest. -/
def hexB64 : String := String.mk (List.replicate 64 'b')

/-- C1 counterexample: the round trip fails as universally stated.  When
the converted text itself contains a line matching the Hash pattern (here
the source body is literally `Hash: <64 a>`), extraction returns that
earlier line's digest, not the embedded footer digest `<64 b>`, because
extraction takes the *first* matching paragraph in document order. -/
theorem C1_roundtrip_counterexample :
    validDigest hexB64 = true ∧
    extract_hash_from_adf (adf_of_lines (splitNl (build_jira_description
      (fun _ => hexB64) (some ("Hash: " ++ hexA64)) ("u")))) ≠
      .ok (some hexB64) := by
  constructor
  · decide
  · decide

/-- C1 witness: the amended round-trip theorem applied at a concrete body,
URL and digest. -/
theorem C1_roundtrip_witness :
    validDigest hexA64 = true ∧
    extract_hash_from_adf (adf_of_lines (splitNl (build_jira_description
      (fun _ => hexA64) (some ("hello **w**")) ("https://github.com/o/r/issues/1")))) =
      .ok (some hexA64) :=
  ⟨by decide, C1_embed_extract_roundtrip (fun _ => hexA64) (some ("hello **w**"))
    ("https://github.com/o/r/issues/1") (by decide) (by decide) (by decide)⟩

/-- C2: evaluation of the Markup Transcoder at the input
`"# Title\n- [ ] todo\n**bold**"`.  The heading and task lines convert as
the claim states, but the third line comes out `_bold_`: the italic
substitution re-matches the single asterisks produced by the bold
substitution, contradicting the source comment `(but not inside
already-converted bold markers)` — a code bug relative to the claimed
`*bold*`. -/
theorem C2_transcoder_eval :
    markdown_to_jira_wiki ("# Title\n- [ ] todo\n**bold**") =
      "h1. Title\n* (x) todo\n_bold_" := by decide

theorem exbind_ok {ε α β : Type} (a : α) (f : α → Except ε β) :
    Except.bind (.ok a) f = f a := rfl

theorem bindDo_ok {ε α β : Type} (a : α) (f : α → Except ε β) :
    ((Except.ok a : Except ε α) >>= f) = f a := rfl

/-- C9 counterexample input: a description whose `content` list holds a
non-dict element, so `node.get("type")` raises `AttributeError`. -/
def malformedDoc : JVal := .jobj [("content", .jarr [.jnum 1])]

/-- A well-formed text run entry: a dict whose `text` field (defaulting to
the empty string) is a string whenever the run's type is `text`. -/
def childOk : JVal → Bool
  | .jobj fields =>
    if ((jlookup fields ("type")).getD .jnull).isStrVal ("text") then
      match (jlookup fields ("text")).getD (.jstr "") with
      | .jstr _ => true
      | _ => false
    else true
  | _ => false

/-- A well-formed top-level block: a dict whose `content` (defaulting to
the empty list) is a list of well-formed runs whenever it is a paragraph. -/
def nodeOk : JVal → Bool
  | .jobj fields =>
    if ((jlookup fields ("type")).getD .jnull).isStrVal ("paragraph") then
      match (jlookup fields ("content")).getD (.jarr []) with
      | .jarr items => items.all childOk
      | _ => false
    else true
  | _ => false

/-- A description on which extraction cannot raise: anything that is not a
dict (extraction answers immediately), or a dict whose `content`
(defaulting to the empty list) is a list of well-formed blocks. -/
def docOk : JVal → Bool
  | .jobj fields =>
    match (jlookup fields ("content")).getD (.jarr []) with
    | .jarr nodes => nodes.all nodeOk
    | _ => false
  | _ => true

/-- The element list of a JSON array (and `[]` otherwise). -/
def jarrItems : JVal → List JVal
  | .jarr items => items
  | _ => []

/-- A block contains no Hash line: if it is a paragraph, the text obtained
by the extraction pipeline (text-run collection then concatenation) does
not match the Hash pattern. -/
def nodeNoHash : JVal → Bool
  | .jobj fields =>
    if ((jlookup fields ("type")).getD .jnull).isStrVal ("paragraph") then
      match Except.bind (extract_loop.collect_text_parts
          (jarrItems ((jlookup fields ("content")).getD (.jarr [])))) pyJoinStr with
      | .ok line => (matchHashLine line).isNone
      | .error _ => true
    else true
  | _ => true

/-- No paragraph of the description matches the Hash pattern. -/
def docNoHash : JVal → Bool
  | .jobj fields =>
    (jarrItems ((jlookup fields ("content")).getD (.jarr []))).all nodeNoHash
  | _ => true

theorem collect_cons_obj (fields : List (String × JVal)) (rest : List JVal) :
    extract_loop.collect_text_parts (.jobj fields :: rest) =
      if ((jlookup fields ("type")).getD .jnull).isStrVal ("text") then
        Except.bind (extract_loop.collect_text_parts rest)
          (fun r => .ok (((jlookup fields ("text")).getD (.jstr "")) :: r))
      else extract_loop.collect_text_parts rest := rfl

theorem extract_loop_cons_obj (fields : List (String × JVal)) (rest : List JVal) :
    extract_loop (.jobj fields :: rest) =
      if !(((jlookup fields ("type")).getD .jnull).isStrVal ("paragraph")) then
        extract_loop rest
      else
        Except.bind (pyIter ((jlookup fields ("content")).getD (.jarr [])))
          (fun children => Except.bind (extract_loop.collect_text_parts children)
            (fun parts => Except.bind (pyJoinStr parts)
              (fun line =>
                match matchHashLine line with
                | some h => .ok (some h)
                | none => extract_loop rest))) := rfl

theorem collect_text_parts_ok (items : List JVal) (h : items.all childOk = true) :
    ∃ ps, extract_loop.collect_text_parts items = .ok ps ∧
      ∀ p ∈ ps, ∃ s, p = .jstr s := by
  induction items with
  | nil => exact ⟨[], rfl, by simp⟩
  | cons child rest ih =>
    rw [List.all_cons, Bool.and_eq_true] at h
    obtain ⟨hc, hr⟩ := h
    obtain ⟨ps, hps, hstr⟩ := ih hr
    cases child with
    | jobj fields =>
      rw [collect_cons_obj]
      by_cases hty : ((jlookup fields ("type")).getD .jnull).isStrVal ("text") = true
      · have htext : ∃ s, (jlookup fields ("text")).getD (.jstr "") = .jstr s := by
          simp only [childOk] at hc
          rw [if_pos hty] at hc
          cases hx : (jlookup fields ("text")).getD (.jstr "") <;> rw [hx] at hc <;>
            first
              | exact ⟨_, rfl⟩
              | exact absurd hc (by simp)
        obtain ⟨s, hs⟩ := htext
        rw [if_pos hty, hps, exbind_ok, hs]
        refine ⟨.jstr s :: ps, rfl, ?_⟩
        intro p hp
        rcases List.mem_cons.mp hp with hp | hp
        · exact ⟨s, hp⟩
        · exact hstr p hp
      · rw [if_neg hty]
        exact ⟨ps, hps, hstr⟩
    | jnull => simp [childOk] at hc
    | jbool b => simp [childOk] at hc
    | jnum n => simp [childOk] at hc
    | jstr s => simp [childOk] at hc
    | jarr its => simp [childOk] at hc

theorem pyJoinStr_ok : ∀ ps : List JVal, (∀ p ∈ ps, ∃ s, p = .jstr s) →
    ∃ line, pyJoinStr ps = .ok line
  | [], _ => ⟨"", rfl⟩
  | p :: rest, h => by
    obtain ⟨s, hs⟩ := h p (by simp)
    subst hs
    obtain ⟨r, hr⟩ := pyJoinStr_ok rest (fun q hq => h q (by simp [hq]))
    cases rest with
    | nil => exact ⟨s, rfl⟩
    | cons q qs =>
      refine ⟨s ++ r, ?_⟩
      rw [show pyJoinStr (.jstr s :: q :: qs) =
        (pyJoinStr (q :: qs)).map (fun r => s ++ r) from rfl, hr]
      rfl

theorem extract_loop_ok (nodes : List JVal) (h : nodes.all nodeOk = true) :
    ∃ r, extract_loop nodes = .ok r := by
  induction nodes with
  | nil => exact ⟨none, rfl⟩
  | cons node rest ih =>
    rw [List.all_cons, Bool.and_eq_true] at h
    obtain ⟨hn, hr⟩ := h
    obtain ⟨r, hrest⟩ := ih hr
    cases node with
    | jobj fields =>
      rw [extract_loop_cons_obj]
      by_cases hty : ((jlookup fields ("type")).getD .jnull).isStrVal ("paragraph") = true
      · rw [if_neg (by simp [hty])]
        have hcontent : ∃ items, (jlookup fields ("content")).getD (.jarr []) = .jarr items ∧
            items.all childOk = true := by
          simp only [nodeOk] at hn
          rw [if_pos hty] at hn
          cases hx : (jlookup fields ("content")).getD (.jarr []) <;> rw [hx] at hn <;>
            first
              | exact ⟨_, rfl, hn⟩
              | exact absurd hn (by simp)
        obtain ⟨items, hitems, hallc⟩ := hcontent
        obtain ⟨ps, hps, hstr⟩ := collect_text_parts_ok items hallc
        obtain ⟨line, hline⟩ := pyJoinStr_ok ps hstr
        rw [hitems, show pyIter (.jarr items) = .ok items from rfl, exbind_ok, hps,
          exbind_ok, hline, exbind_ok]
        cases hm : matchHashLine line with
        | some hsh => exact ⟨some hsh, rfl⟩
        | none => exact ⟨r, hrest⟩
      · rw [if_pos (by revert hty; cases ((jlookup fields ("type")).getD .jnull).isStrVal ("paragraph") <;> simp)]
        exact ⟨r, hrest⟩
    | jnull => simp [nodeOk] at hn
    | jbool b => simp [nodeOk] at hn
    | jnum n => simp [nodeOk] at hn
    | jstr s => simp [nodeOk] at hn
    | jarr its => simp [nodeOk] at hn

theorem extract_loop_none (nodes : List JVal) (h : nodes.all nodeOk = true)
    (hnh : nodes.all nodeNoHash = true) :
    extract_loop nodes = .ok none := by
  induction nodes with
  | nil => rfl
  | cons node rest ih =>
    rw [List.all_cons, Bool.and_eq_true] at h hnh
    obtain ⟨hn, hr⟩ := h
    obtain ⟨hx1, hx2⟩ := hnh
    have hrest := ih hr hx2
    cases node with
    | jobj fields =>
      rw [extract_loop_cons_obj]
      by_cases hty : ((jlookup fields ("type")).getD .jnull).isStrVal ("paragraph") = true
      · rw [if_neg (by simp [hty])]
        have hcontent : ∃ items, (jlookup fields ("content")).getD (.jarr []) = .jarr items ∧
            items.all childOk = true := by
          simp only [nodeOk] at hn
          rw [if_pos hty] at hn
          cases hxx : (jlookup fields ("content")).getD (.jarr []) <;> rw [hxx] at hn <;>
            first
              | exact ⟨_, rfl, hn⟩
              | exact absurd hn (by simp)
        obtain ⟨items, hitems, hallc⟩ := hcontent
        obtain ⟨ps, hps, hstr⟩ := collect_text_parts_ok items hallc
        obtain ⟨line, hline⟩ := pyJoinStr_ok ps hstr
        have hnom : matchHashLine line = none := by
          simp only [nodeNoHash] at hx1
          rw [if_pos hty, hitems,
            show jarrItems (.jarr items) = items from rfl, hps, exbind_ok,
            hline] at hx1
          replace hx1 : (matchHashLine line).isNone = true := hx1
          exact Option.isNone_iff_eq_none.mp hx1
        rw [hitems, show pyIter (.jarr items) = .ok items from rfl, exbind_ok, hps,
          exbind_ok, hline, exbind_ok, hnom]
        exact hrest
      · rw [if_pos (by revert hty; cases ((jlookup fields ("type")).getD .jnull).isStrVal ("paragraph") <;> simp)]
        exact hrest
    | jnull => simp [nodeOk] at hn
    | jbool b => simp [nodeOk] at hn
    | jnum n => simp [nodeOk] at hn
    | jstr s => simp [nodeOk] at hn
    | jarr its => simp [nodeOk] at hn

/-- C9 counterexample: extraction is not total.  On a malformed nested
block structure (a `content` list holding the number 1) the code raises
`AttributeError` instead of returning null. -/
theorem C9_extract_counterexample :
    extract_hash_from_adf malformedDoc =
      .error ("AttributeError: object has no attribute get") := rfl

/-- C9 (amended): extraction returns null without raising for an absent
(falsy) or non-dict description; it never raises on a description whose
nested block structure is well formed (every block a dict, every
paragraph's run a dict with a string `text`); and on such a well-formed
structure in which no paragraph's text matches the Hash pattern it
returns exactly null.  On other malformed nested structures it can
raise. -/
theorem C9_extract_total_amended (v : JVal) :
    (v.truthy = false ∨ v.isObj = false → extract_hash_from_adf v = .ok none) ∧
    (docOk v = true → ∃ r, extract_hash_from_adf v = .ok r) ∧
    (docOk v = true → docNoHash v = true → extract_hash_from_adf v = .ok none) := by
  refine ⟨?_, ?_, ?_⟩
  · intro h
    unfold extract_hash_from_adf
    rcases h with h | h
    · rw [if_pos (by simp [h])]
    · rw [if_pos (by simp [h])]
  · intro h
    cases v with
    | jobj fields =>
      by_cases hemp : fields.isEmpty = true
      · refine ⟨none, ?_⟩
        unfold extract_hash_from_adf
        rw [if_pos (by simp [JVal.truthy, hemp])]
      · have htruthy : (JVal.jobj fields).truthy = true := by
          revert hemp; simp [JVal.truthy]
        have hcontent : ∃ nodes, (jlookup fields ("content")).getD (.jarr []) = .jarr nodes ∧
            nodes.all nodeOk = true := by
          simp only [docOk] at h
          cases hx : (jlookup fields ("content")).getD (.jarr []) <;> rw [hx] at h <;>
            first
              | exact ⟨_, rfl, h⟩
              | exact absurd h (by simp)
        obtain ⟨nodes, hnodes, hall⟩ := hcontent
        obtain ⟨r, hloop⟩ := extract_loop_ok nodes hall
        refine ⟨r, ?_⟩
        unfold extract_hash_from_adf
        rw [if_neg (by simp [htruthy, JVal.isObj])]
        rw [show pyGet (.jobj fields) ("content") (.jarr []) =
          .ok ((jlookup fields ("content")).getD (.jarr [])) from rfl, bindDo_ok, hnodes,
          show pyIter (.jarr nodes) = .ok nodes from rfl, bindDo_ok]
        exact hloop
    | jnull =>
      refine ⟨none, ?_⟩
      unfold extract_hash_from_adf
      rw [if_pos (by decide)]
    | jbool b =>
      refine ⟨none, ?_⟩
      unfold extract_hash_from_adf
      rw [if_pos (by simp [JVal.isObj])]
    | jnum n =>
      refine ⟨none, ?_⟩
      unfold extract_hash_from_adf
      rw [if_pos (by simp [JVal.isObj])]
    | jstr s =>
      refine ⟨none, ?_⟩
      unfold extract_hash_from_adf
      rw [if_pos (by simp [JVal.isObj])]
    | jarr its =>
      refine ⟨none, ?_⟩
      unfold extract_hash_from_adf
      rw [if_pos (by simp [JVal.isObj])]
  · intro h hnh
    cases v with
    | jobj fields =>
      by_cases hemp : fields.isEmpty = true
      · unfold extract_hash_from_adf
        rw [if_pos (by simp [JVal.truthy, hemp])]
      · have htruthy : (JVal.jobj fields).truthy = true := by
          revert hemp; simp [JVal.truthy]
        have hcontent : ∃ nodes, (jlookup fields ("content")).getD (.jarr []) = .jarr nodes ∧
            nodes.all nodeOk = true := by
          simp only [docOk] at h
          cases hx : (jlookup fields ("content")).getD (.jarr []) <;> rw [hx] at h <;>
            first
              | exact ⟨_, rfl, h⟩
              | exact absurd h (by simp)
        obtain ⟨nodes, hnodes, hall⟩ := hcontent
        have hallnh : nodes.all nodeNoHash = true := by
          simp only [docNoHash] at hnh
          rw [hnodes, show jarrItems (.jarr nodes) = nodes from rfl] at hnh
          exact hnh
        have hloop := extract_loop_none nodes hall hallnh
        unfold extract_hash_from_adf
        rw [if_neg (by simp [htruthy, JVal.isObj])]
        rw [show pyGet (.jobj fields) ("content") (.jarr []) =
          .ok ((jlookup fields ("content")).getD (.jarr [])) from rfl, bindDo_ok, hnodes,
          show pyIter (.jarr nodes) = .ok nodes from rfl, bindDo_ok]
        exact hloop
    | jnull =>
      unfold extract_hash_from_adf
      rw [if_pos (by decide)]
    | jbool b =>
      unfold extract_hash_from_adf
      rw [if_pos (by simp [JVal.isObj])]
    | jnum n =>
      unfold extract_hash_from_adf
      rw [if_pos (by simp [JVal.isObj])]
    | jstr s =>
      unfold extract_hash_from_adf
      rw [if_pos (by simp [JVal.isObj])]
    | jarr its =>
      unfold extract_hash_from_adf
      rw [if_pos (by simp [JVal.isObj])]

/-- C9 witness: the amended theorem applied at the absent description and
at a concrete well-formed document with no Hash paragraph, where
extraction returns exactly null. -/
theorem C9_extract_total_witness :
    extract_hash_from_adf .jnull = .ok none ∧
    (∃ r, extract_hash_from_adf (adf_of_lines (["x"])) = .ok r) ∧
    extract_hash_from_adf (adf_of_lines (["x"])) = .ok none :=
  ⟨(C9_extract_total_amended .jnull).1 (Or.inl (by decide)),
   (C9_extract_total_amended (adf_of_lines (["x"]))).2.1 (by decide),
   (C9_extract_total_amended (adf_of_lines (["x"]))).2.2 (by decide) (by decide)⟩

/-! ### Scanning and planning (`jira-sync.py` lines 160-176, 288-315,
340-583, 760-854) -/

/-- A fetched source item (a GitHub issue snapshot as assembled by
`fetch_epics` / `fetch_sub_issues`): the body may be null in the GraphQL
response and the type label is optional. -/
structure Issue where
  number : Int
  title : String
  body : Option String
  url : String
  state : String
  issue_type : Option String
deriving DecidableEq

/-- Uppercase letter, the character class `[A-Z]`. -/
def isUpperAZ (c : Char) : Bool := decide ('A' ≤ c) && decide (c ≤ 'Z')

/-- The character class `[A-Z0-9]`. -/
def isUpperDigit (c : Char) : Bool := isUpperAZ c || c.isDigit

/-- Does the pattern list open the input? -/
def startsWithL : List Char → List Char → Bool
  | [], _ => true
  | _ :: _, [] => false
  | p :: ps, c :: cs => p == c && startsWithL ps cs

/-- The part of the `detect_jira_link` pattern after the alternation:
`\s*:\s*\[([A-Z][A-Z0-9]+-\d+)\]`, returning the captured key.  Each
greedy class is followed by a character outside the class, so the match is
deterministic. -/
def parseJiraKeyAt (cs : List Char) : Option String :=
  match cs.dropWhile pyIsSpace with
  | ':' :: r2 =>
    match r2.dropWhile pyIsSpace with
    | '[' :: r4 =>
      match r4 with
      | c :: r5 =>
        if isUpperAZ c then
          let alnum := r5.takeWhile isUpperDigit
          match r5.dropWhile isUpperDigit with
          | '-' :: r6 =>
            let digs := r6.takeWhile Char.isDigit
            match r6.dropWhile Char.isDigit with
            | ']' :: _ =>
              if 1 ≤ alnum.length ∧ 1 ≤ digs.length then
                some (String.mk (c :: alnum ++ '-' :: digs))
              else none
            | _ => none
          | _ => none
        else none
      | [] => none
    | _ => none
  | _ => none

/-- The position scan of `re.search` for the `detect_jira_link` pattern.
The two alternation literals start with different characters, so at most
one branch can be tried at any position. -/
def detectSearch : List Char → Option String
  | [] => none
  | c :: cs =>
    if startsWithL ("Migrated to Jira".data) (c :: cs) then
      match parseJiraKeyAt (List.drop 16 (c :: cs)) with
      | some k => some k
      | none => detectSearch cs
    else if startsWithL ("Jira Link".data) (c :: cs) then
      match parseJiraKeyAt (List.drop 9 (c :: cs)) with
      | some k => some k
      | none => detectSearch cs
    else detectSearch cs

/-- `jira-sync.py` `detect_jira_link`. -/
def detect_jira_link (body : Option String) : Option String :=
  match body with
  | none => none
  | some b => if b = "" then none else detectSearch b.data

/-- One scanned group: the epic, its detected destination key, and its
children with their detected keys. -/
structure ScanEntry where
  epic : Issue
  jira_key : Option String
  sub_issues : List (Issue × Option String)
deriving DecidableEq

/-- `scan_repo` with the network fetching abstracted away: the input pairs
each epic with its (lazily fetched) sub-issue list.  A closed epic with no
destination link is dropped together with its children. -/
def scan_repo (fetched : List (Issue × List Issue)) : List ScanEntry :=
  match fetched with
  | [] => []
  | (epic, subs) :: rest =>
    let epicKey := detect_jira_link epic.body
    if epic.state = "CLOSED" ∧ epicKey = none then
      scan_repo rest
    else
      { epic := epic, jira_key := epicKey,
        sub_issues := subs.map (fun sub => (sub, detect_jira_link sub.body)) }
        :: scan_repo rest

/-- The semantics of a configured title pattern: for
`re.match(pattern, title)` the end position (in characters) of the match
anchored at position 0, or `none`.  Patterns are configuration data
interpreted by the external `re` library, so a rule carries its matching
function. -/
def TitlePattern := String → Option Nat

/-- The semantics of a configured strip pattern under
`re.sub(pattern, "", title)`. -/
def StripPattern := String → String

/-- A classification rule (a `rules` entry of a repo config).  The source
dict key `jira_prefix` is named `jira_pref` here; `match_issue_title` is
the `match.issue_title` pattern carried by its `re.match` semantics.
Strip-pattern lists are stored `_as_list`-normalized. -/
structure Rule where
  match_issue_title : TitlePattern
  jira_pref : Option String
  scylla_components : Option String
  github_title_strip : Option (List StripPattern)

/-- A `repos` entry of the configuration (source key `jira_prefix` is
named `jira_pref`). -/
structure RepoConfig where
  github : String
  jira_pref : String
  scylla_components : String
  rules : List Rule
  github_title_strip : Option (List StripPattern)

/-- The configuration surface used by `build_plan` and `main`. -/
structure Config where
  jira_project : String
  repos : List RepoConfig
  type_mapping : List (String × String)
  default_worktype : Option String
  github_title_strip : Option (List StripPattern)

/-- Split before the first occurrence of `stop` on the same line (`.*?`
does not cross a newline). -/
def breakAtBeforeNl (stop : Char) : List Char → Option (List Char × List Char)
  | [] => none
  | c :: cs =>
    if c = stop then some ([], cs)
    else if c = '\n' then none
    else (breakAtBeforeNl stop cs).map (fun p => (c :: p.1, p.2))

/-- The built-in default strip pattern `r"^\[.*?\]\s*"` under
`re.sub(pattern, "", title)`: anchored, so at most one replacement —
when the title starts with `[` and a `]` follows on the same line, remove
through the first `]` and any following whitespace. -/
def defaultStrip : StripPattern := fun title =>
  match title.data with
  | '[' :: rest =>
    match breakAtBeforeNl ']' rest with
    | some (_, after) => String.mk (after.dropWhile pyIsSpace)
    | none => title
  | _ => title

/-- The rule-list scan of `resolve_rule`: first matching rule wins. -/
def resolve_rule_go (title : String) (repo : RepoConfig)
    (repo_patterns : List StripPattern) :
    List Rule → String × String × List StripPattern × String
  | [] => (repo.jira_pref, repo.scylla_components, repo_patterns, title)
  | rule :: rest =>
    match rule.match_issue_title title with
    | some e =>
      (rule.jira_pref.getD repo.jira_pref,
       rule.scylla_components.getD repo.scylla_components,
       rule.github_title_strip.getD repo_patterns,
       pyLStrip (title.drop e))
    | none => resolve_rule_go title repo repo_patterns rest

/-- `jira-sync.py` `resolve_rule` (lines 422-443). -/
def resolve_rule (title : String) (repo : RepoConfig) (global : Config) :
    String × String × List StripPattern × String :=
  let default_patterns := global.github_title_strip.getD [defaultStrip]
  let repo_patterns := repo.github_title_strip.getD default_patterns
  resolve_rule_go title repo repo_patterns repo.rules

/-- `strip_title`: sequential substitution-then-strip passes, each
pattern's output feeding the next. -/
def strip_title (title : String) (patterns : List StripPattern) : String :=
  patterns.foldl (fun t p => pyStrip (p t)) title

/-- `re.match(r"https://github\.com/([^/]+/[^/]+)/", url)`: the
`owner/repo` slug of a GitHub issue URL. -/
def githubSlug (url : String) : Option String :=
  if startsWithL ("https://github.com/".data) url.data then
    let rest := url.data.drop 19
    let owner := rest.takeWhile (fun c => !(c == '/'))
    match rest.dropWhile (fun c => !(c == '/')) with
    | '/' :: r2 =>
      let repo := r2.takeWhile (fun c => !(c == '/'))
      match r2.dropWhile (fun c => !(c == '/')) with
      | '/' :: _ =>
        if 1 ≤ owner.length ∧ 1 ≤ repo.length then
          some (String.mk (owner ++ '/' :: repo))
        else none
      | _ => none
    | _ => none
  else none

/-- `repo_config_for_url`: first configured repo whose slug matches. -/
def repo_config_for_url (github_url : String) (config : Config) : Option RepoConfig :=
  match githubSlug github_url with
  | none => none
  | some slug => config.repos.find? (fun r => r.github == slug)

/-- An issue plan entry (a Python dict; an optional field models both an
absent key and a stored `None`). -/
structure PlanEntry where
  action : String
  github_ref : String
  github_title : String
  jira_key : Option String := none
  reason : Option String := none
  github_body : Option String := none
  jira_issue_type : Option String := none
  jira_project : Option String := none
  scylla_components : Option String := none
  summary : Option String := none
  jira_parent : Option String := none
  jira_parent_github : Option String := none
deriving DecidableEq

/-- A plan item: a `create_field_option` entry or an issue entry. -/
inductive PlanItem where
  | fieldOption (field : String) (value : String)
  | issue (e : PlanEntry)
deriving DecidableEq

/-- The update checker applied to already-migrated items (`none` models
the `not (mgr and not skip_update_check)` branch of `build_plan`, which
uses `("skip", "Already migrated")` unconditionally). -/
def Checker := Option String → String → Except String (String × String)

/-- The `fail:` action string for a missing component value. -/
def failAction (components : String) : String :=
  "fail: missing Scylla Components option \x27" ++ components ++ "\x27"

/-- The plan entry for an already-migrated item (epic or sub):
`action`/`reason` from the update check, `github_body` kept only on
`update`. -/
def migratedEntry (checker : Option Checker) (it : Issue) (key : String) :
    Except String PlanEntry :=
  (match checker with
   | some check => check it.body key
   | none => .ok (("skip", "Already migrated") : String × String)) >>= fun ar =>
  let base : PlanEntry :=
    { action := ar.1, github_ref := it.url, github_title := it.title,
      jira_key := some key, reason := some ar.2 }
  .ok (if ar.1 = "update" then { base with github_body := it.body } else base)

/-- Python `dict.get` over the type-mapping table. -/
def lookupAssoc (m : List (String × String)) (key : String) : Option String :=
  match m with
  | [] => none
  | (k, v) :: rest => if k = key then some v else lookupAssoc rest key

/-- The create/fail entry built for a not-yet-migrated sub-issue
(`build_plan` lines 547-567): destination type from the type mapping,
`fail:` action when the resolved component is missing, parent linkage from
the epic's key (direct) or URL (pending). -/
def subCreateEntry (config : Config) (missing_components : List String)
    (epicKey : Option String) (epicUrl : String) (sub : Issue)
    (effective : RepoConfig) : PlanEntry :=
  let rcr := resolve_rule sub.title effective config
  let components := rcr.2.1
  let jira_type := (lookupAssoc config.type_mapping ((sub.issue_type).getD "")).getD
    (config.default_worktype.getD "Task")
  let base : PlanEntry :=
    { action := "create", github_ref := sub.url, github_title := sub.title,
      github_body := sub.body, jira_issue_type := some jira_type,
      jira_project := some config.jira_project,
      scylla_components := some components,
      summary := some (rcr.1 ++ " " ++ strip_title rcr.2.2.2 rcr.2.2.1) }
  let withFail := if components ∈ missing_components then
    { base with action := failAction components } else base
  match epicKey with
  | some k => { withFail with jira_parent := some k }
  | none => { withFail with jira_parent_github := some epicUrl }

/-- The plan entry for one sub-issue (`build_plan` lines 524-569):
`none` when the sub's repo config is missing (warn-and-skip). -/
def planForSub (checker : Option Checker) (config : Config)
    (missing_components : List String) (epicKey : Option String) (epicUrl : String)
    (sub : Issue) (subKey : Option String) : Except String (Option PlanItem) := do
  match subKey with
  | some key => do
    let e ← migratedEntry checker sub key
    .ok (some (PlanItem.issue e))
  | none =>
    match repo_config_for_url sub.url config with
    | none => .ok none
    | some effective =>
      .ok (some (PlanItem.issue
        (subCreateEntry config missing_components epicKey epicUrl sub effective)))

/-- The sub-issue loop of `build_plan`. -/
def planForSubs (checker : Option Checker) (config : Config)
    (missing_components : List String) (epicKey : Option String) (epicUrl : String) :
    List (Issue × Option String) → Except String (List PlanItem)
  | [] => .ok []
  | (sub, subKey) :: rest => do
    let item ← planForSub checker config missing_components epicKey epicUrl sub subKey
    let others ← planForSubs checker config missing_components epicKey epicUrl rest
    .ok (match item with
         | some it => it :: others
         | none => others)

/-- The create/fail entry built for a not-yet-migrated epic (`build_plan`
lines 508-522): type `Epic`, `fail:` action when the resolved component is
missing, no parent linkage. -/
def epicCreateEntry (config : Config) (missing_components : List String)
    (epic : Issue) (effective : RepoConfig) : PlanEntry :=
  let rcr := resolve_rule epic.title effective config
  let components := rcr.2.1
  let base : PlanEntry :=
    { action := "create", github_ref := epic.url, github_title := epic.title,
      github_body := epic.body, jira_issue_type := some "Epic",
      jira_project := some config.jira_project,
      scylla_components := some components,
      summary := some (rcr.1 ++ " " ++ strip_title rcr.2.2.2 rcr.2.2.1) }
  if components ∈ missing_components then
    { base with action := failAction components }
  else base

/-- The plan entries of one scanned group (`build_plan` loop body, lines
485-569): the epic's entry followed by its children's entries; a missing
repo config for an unmigrated epic skips the whole group (`continue`). -/
def planForGroup (checker : Option Checker) (config : Config)
    (missing_components : List String) (entry : ScanEntry) :
    Except String (List PlanItem) := do
  match entry.jira_key with
  | some key => do
    let e ← migratedEntry checker entry.epic key
    let subItems ← planForSubs checker config missing_components entry.jira_key
      entry.epic.url entry.sub_issues
    .ok (PlanItem.issue e :: subItems)
  | none =>
    match repo_config_for_url entry.epic.url config with
    | none => .ok []
    | some effective => do
      let subItems ← planForSubs checker config missing_components entry.jira_key
        entry.epic.url entry.sub_issues
      .ok (PlanItem.issue (epicCreateEntry config missing_components entry.epic effective)
        :: subItems)

/-- `jira-sync.py` `build_plan` (the unused `repo_config` parameter of the
source is omitted; per-item configs are looked up by URL). -/
def build_plan (checker : Option Checker) (scan_results : List ScanEntry)
    (config : Config) (missing_components : List String) :
    Except String (List PlanItem) :=
  match scan_results with
  | [] => .ok []
  | entry :: rest => do
    let items ← planForGroup checker config missing_components entry
    let others ← build_plan checker rest config missing_components
    .ok (items ++ others)

/-- Lexicographic code-point comparison (Python `<` on `str`). -/
def ltChars : List Char → List Char → Bool
  | [], [] => false
  | [], _ :: _ => true
  | _ :: _, [] => false
  | a :: as, b :: bs => if a < b then true else if b < a then false else ltChars as bs

/-- Python `a < b` on strings. -/
def ltStr (a b : String) : Bool := ltChars a.data b.data

/-- Insertion into a sorted list. -/
def insertSorted (x : String) : List String → List String
  | [] => [x]
  | y :: ys => if ltStr y x then y :: insertSorted x ys else x :: y :: ys

/-- Python `sorted` on strings (insertion sort; the order is total, so
any correct sort yields the same list). -/
def sortStr : List String → List String
  | [] => []
  | x :: xs => insertSorted x (sortStr xs)

/-- `jira-sync.py` `build_field_plan`. -/
def build_field_plan (missing_components : List String) : List PlanItem :=
  (sortStr missing_components).map (fun v => .fieldOption ("Scylla Components") v)

/-- The component values required by the configuration: each repo's
default plus every rule override (`find_missing_components` lines
388-393). -/
def required_components (repos : List RepoConfig) : List String :=
  repos.flatMap (fun r =>
    r.scylla_components :: r.rules.filterMap (fun rule => rule.scylla_components))

/-- `find_missing_components`: required values absent — by exact,
case-sensitive comparison — from the existing option set, deduplicated
(the source builds a `set`) and sorted.  The Jira field/context plumbing
is abstracted into the `existing` parameter. -/
def find_missing_components (repos : List RepoConfig) (existing : List String) :
    List String :=
  sortStr (((required_components repos).dedup).filter (fun v => !(decide (v ∈ existing))))

/-- The creation decisions of `_execute_field_options` (lines 648-682):
the existing set is lowercased once; a `create_field_option` entry is
skipped when its lowercased value is present, otherwise created and added
to the set.  Returns the values actually created, in order. -/
def field_options_created (existingLower : List String) : List PlanItem → List String
  | [] => []
  | .fieldOption _ value :: rest =>
    if pyLower value ∈ existingLower then
      field_options_created existingLower rest
    else
      value :: field_options_created (pyLower value :: existingLower) rest
  | .issue _ :: rest => field_options_created existingLower rest

/-- The executor's category-option pass, from the destination's current
option values. -/
def _execute_field_options_created (plan : List PlanItem)
    (existingOptions : List String) : List String :=
  field_options_created (existingOptions.map pyLower) plan

/-- The outcome of `JiraManager.get_issue`: a parsed issue or an HTTP
error with its status code. -/
inductive FetchResult where
  | success (issue : JVal)
  | httpError (status : Nat)

/-- The fingerprint stored on a fetched issue:
`extract_hash_from_adf(issue.get("fields", {}).get("description"))`
(`_check_update_needed` lines 305-306). -/
def storedFingerprint (issue : JVal) : Except String (Option String) := do
  let fields ← pyGet issue ("fields") (.jobj [])
  let description ← pyGet fields ("description") .jnull
  extract_hash_from_adf description

/-- `jira-sync.py` `_check_update_needed` (lines 288-315): a 404 is a
non-fatal skip; any other HTTP error re-raises; otherwise the stored
fingerprint is compared with the current body hash. -/
def _check_update_needed (sha : String → String) (get_issue : String → FetchResult)
    (github_body : Option String) (jira_key : String) :
    Except String (String × String) :=
  match get_issue jira_key with
  | .httpError 404 => .ok ("skip", "Jira issue " ++ jira_key ++ " not found")
  | .httpError status => .error ("HTTPError " ++ toString status)
  | .success issue => do
    let stored ← storedFingerprint issue
    match stored with
    | none => .ok (("skip", "Already migrated (no hash)") : String × String)
    | some h =>
      if h = compute_body_hash sha github_body then
        .ok (("skip", "Already migrated (hash matches)") : String × String)
      else
        .ok (("update", "Description changed (hash mismatch)") : String × String)

/-- The per-repo scan-and-plan loop of `main` (lines 825-831). -/
def mainLoop (checker : Option Checker) (config : Config)
    (issue_missing : List String) :
    List (RepoConfig × List (Issue × List Issue)) → Except String (List PlanItem)
  | [] => .ok []
  | (_, groups) :: rest => do
    let p ← build_plan checker (scan_repo groups) config issue_missing
    let others ← mainLoop checker config issue_missing rest
    .ok (p ++ others)

/-- The plan assembly of `main` (lines 808-831): detect the missing
component values; when authorized (`--create-components`) emit the field
plan and clear the demotion set, otherwise demote; then the field plan
followed by the per-repo issue plans in fetch order.  `fetched` pairs each
scanned repo with its fetched epic groups; `existingOptions` is the
destination's current option value set. -/
def main_plan (checker : Option Checker) (config : Config)
    (create_components : Bool) (existingOptions : List String)
    (fetched : List (RepoConfig × List (Issue × List Issue))) :
    Except String (List PlanItem) := do
  let missing := find_missing_components config.repos existingOptions
  let field_plan := if create_components ∧ missing ≠ [] then build_field_plan missing
    else []
  let issue_missing := if create_components ∧ missing ≠ [] then [] else missing
  let plans ← mainLoop checker config issue_missing fetched
  .ok (field_plan ++ plans)

/-! ### Supporting lemmas for the planning theorems -/

theorem bindDo_error {ε α β : Type} (e : ε) (f : α → Except ε β) :
    ((Except.error e : Except ε α) >>= f) = .error e := rfl

theorem exBind_eq_ok {ε α β : Type} (x : Except ε α) (f : α → Except ε β) (b : β) :
    (x >>= f) = .ok b ↔ ∃ a, x = .ok a ∧ f a = .ok b := by
  cases x with
  | error e =>
    rw [bindDo_error]
    constructor
    · intro h; exact Except.noConfusion h
    · rintro ⟨a, ha, _⟩; exact Except.noConfusion ha
  | ok a =>
    rw [bindDo_ok]
    constructor
    · intro h; exact ⟨a, rfl, h⟩
    · rintro ⟨a2, ha, hf⟩
      injection ha with ha2
      rw [ha2]; exact hf

theorem mem_insertSorted (x v : String) (l : List String) :
    v ∈ insertSorted x l ↔ v ∈ x :: l := by
  induction l with
  | nil => rfl
  | cons y ys ih =>
    unfold insertSorted
    by_cases h : ltStr y x = true
    · rw [if_pos h]
      simp only [List.mem_cons] at ih ⊢
      rw [ih]
      tauto
    · rw [if_neg h]

theorem mem_sortStr (v : String) (l : List String) : v ∈ sortStr l ↔ v ∈ l := by
  induction l with
  | nil => rfl
  | cons x xs ih =>
    unfold sortStr
    rw [mem_insertSorted]
    simp only [List.mem_cons]
    rw [ih]

theorem count_insertSorted (x v : String) (l : List String) :
    (insertSorted x l).count v = (x :: l).count v := by
  induction l with
  | nil => rfl
  | cons y ys ih =>
    unfold insertSorted
    by_cases h : ltStr y x = true
    · rw [if_pos h]
      rw [List.count_cons, List.count_cons, ih, List.count_cons, List.count_cons]
      omega
    · rw [if_neg h]

theorem count_sortStr (v : String) (l : List String) :
    (sortStr l).count v = l.count v := by
  induction l with
  | nil => rfl
  | cons x xs ih =>
    unfold sortStr
    rw [count_insertSorted, List.count_cons, List.count_cons, ih]

/-- C5: closed-group drop.  A closed top-level item with no destination
reference is dropped by the scan with all its children, whatever the
children are, so the plan built from the scan is unchanged by the group's
presence. -/
theorem C5_closed_group_drop (epic : Issue) (subs : List Issue)
    (rest : List (Issue × List Issue))
    (hstate : epic.state = "CLOSED") (hlink : detect_jira_link epic.body = none) :
    scan_repo ((epic, subs) :: rest) = scan_repo rest ∧
    ∀ (checker : Option Checker) (config : Config) (missing : List String),
      build_plan checker (scan_repo ((epic, subs) :: rest)) config missing =
        build_plan checker (scan_repo rest) config missing := by
  have h1 : scan_repo ((epic, subs) :: rest) = scan_repo rest := by
    show (if epic.state = "CLOSED" ∧ detect_jira_link epic.body = none then scan_repo rest
      else _) = scan_repo rest
    rw [if_pos ⟨hstate, hlink⟩]
  exact ⟨h1, fun checker config missing => by rw [h1]⟩

/-- C5 witness input: a closed unmigrated epic with one open child. -/
def epicClosed : Issue :=
  { number := 1, title := "Old epic", body := some "", url := "https://github.com/o/r/issues/1",
    state := "CLOSED", issue_type := some "Epic" }

/-- An open child with no destination reference. -/
def subOpen : Issue :=
  { number := 2, title := "Child", body := some "", url := "https://github.com/o/r/issues/2",
    state := "OPEN", issue_type := none }

/-- C5 witness: the closed-group drop applied at a concrete group. -/
theorem C5_closed_group_drop_witness :
    epicClosed.state = "CLOSED" ∧ scan_repo [(epicClosed, [subOpen])] = scan_repo [] :=
  ⟨rfl, (C5_closed_group_drop epicClosed [subOpen] [] rfl (by decide)).1⟩

theorem resolve_rule_go_congr (title : String) (r1 r2 : RepoConfig)
    (pats : List StripPattern) (rules : List Rule)
    (hp : r1.jira_pref = r2.jira_pref)
    (hc : r1.scylla_components = r2.scylla_components) :
    resolve_rule_go title r1 pats rules = resolve_rule_go title r2 pats rules := by
  induction rules with
  | nil =>
    unfold resolve_rule_go
    rw [hp, hc]
  | cons r rs ih =>
    unfold resolve_rule_go
    cases hm : r.match_issue_title title with
    | some e => rw [hp, hc]
    | none => exact ih

/-- C7: rule precedence of `resolve_rule`.  The rule list is scanned in
declaration order; the first rule whose pattern matches the title wins and
yields its overrides (falling back to the repo defaults) and the remainder
of the title after the matched span, left-stripped; a non-matching head
rule is skipped; when no rule matches, the repo's own defaults and the
unmodified title are returned. -/
theorem C7_rule_precedence (title : String) (repo : RepoConfig) (global : Config) :
    (∀ rule rest e, repo.rules = rule :: rest →
      rule.match_issue_title title = some e →
      resolve_rule title repo global =
        (rule.jira_pref.getD repo.jira_pref,
         rule.scylla_components.getD repo.scylla_components,
         rule.github_title_strip.getD (repo.github_title_strip.getD
           (global.github_title_strip.getD [defaultStrip])),
         pyLStrip (title.drop e))) ∧
    (∀ rule rest, repo.rules = rule :: rest →
      rule.match_issue_title title = none →
      resolve_rule title repo global =
        resolve_rule title { repo with rules := rest } global) ∧
    ((∀ rule ∈ repo.rules, rule.match_issue_title title = none) →
      resolve_rule title repo global =
        (repo.jira_pref, repo.scylla_components,
         repo.github_title_strip.getD (global.github_title_strip.getD [defaultStrip]),
         title)) := by
  refine ⟨?_, ?_, ?_⟩
  · intro rule rest e hrules hmatch
    unfold resolve_rule
    rw [hrules]
    unfold resolve_rule_go
    rw [hmatch]
  · intro rule rest hrules hmatch
    have step : resolve_rule title repo global =
        resolve_rule_go title repo
          (repo.github_title_strip.getD (global.github_title_strip.getD [defaultStrip]))
          (rule :: rest) := by
      unfold resolve_rule
      rw [hrules]
    have step2 : resolve_rule title { repo with rules := rest } global =
        resolve_rule_go title { repo with rules := rest }
          (repo.github_title_strip.getD (global.github_title_strip.getD [defaultStrip]))
          rest := rfl
    have hskip : resolve_rule_go title repo
        (repo.github_title_strip.getD (global.github_title_strip.getD [defaultStrip]))
        (rule :: rest) =
        resolve_rule_go title repo
          (repo.github_title_strip.getD (global.github_title_strip.getD [defaultStrip]))
          rest := by
      show (match rule.match_issue_title title with
        | some e =>
          (rule.jira_pref.getD repo.jira_pref,
           rule.scylla_components.getD repo.scylla_components,
           rule.github_title_strip.getD
             (repo.github_title_strip.getD (global.github_title_strip.getD [defaultStrip])),
           pyLStrip (title.drop e))
        | none =>
          resolve_rule_go title repo
            (repo.github_title_strip.getD (global.github_title_strip.getD [defaultStrip]))
            rest) = _
      simp only [hmatch]
    rw [step, hskip, step2]
    exact resolve_rule_go_congr title repo { repo with rules := rest } _ rest rfl rfl
  · intro hall
    unfold resolve_rule
    have hgo : ∀ rules : List Rule, (∀ rule ∈ rules, rule.match_issue_title title = none) →
        ∀ pats, resolve_rule_go title repo pats rules =
          (repo.jira_pref, repo.scylla_components, pats, title) := by
      intro rules
      induction rules with
      | nil => intro _ pats; rfl
      | cons r rs ih =>
        intro hnone pats
        unfold resolve_rule_go
        rw [hnone r (by simp)]
        exact ih (fun q hq => hnone q (by simp [hq])) pats
    exact hgo repo.rules hall _

/-- The `re.match` semantics of the configured pattern `^Bug`: matches at
position 0 exactly when the title starts with `Bug`, with match end 3. -/
def caretBugPattern : TitlePattern := fun t =>
  if startsWithL ("Bug".data) t.data then some 3 else none

/-- The claim's concrete rule `{match: "^Bug", prefix: "X"}`. -/
def ruleBug : Rule :=
  { match_issue_title := caretBugPattern, jira_pref := some "X",
    scylla_components := none, github_title_strip := none }

/-- The claim's concrete group: default prefix `Y`, rules `[^Bug → X]`. -/
def repoBug : RepoConfig :=
  { github := "o/r", jira_pref := "Y", scylla_components := "Comp",
    rules := [ruleBug], github_title_strip := none }

/-- A minimal global configuration for the C7 witness. -/
def cfgBug : Config :=
  { jira_project := "PRJ", repos := [repoBug], type_mapping := [],
    default_worktype := none, github_title_strip := none }

/-- C7 witness: `"Bug: crash"` resolves to prefix `X`, `"Feature: x"` to
the default prefix `Y`. -/
theorem C7_rule_precedence_witness :
    (resolve_rule ("Bug: crash") repoBug cfgBug).1 = "X" ∧
    (resolve_rule ("Feature: x") repoBug cfgBug).1 = "Y" := by
  constructor
  · rw [(C7_rule_precedence ("Bug: crash") repoBug cfgBug).1 ruleBug [] 3 rfl (by decide)]
    rfl
  · rw [(C7_rule_precedence ("Feature: x") repoBug cfgBug).2.2 (by decide)]
    rfl

/-- The `github_ref` of an issue plan item. -/
def itemRef : PlanItem → Option String
  | .fieldOption _ _ => none
  | .issue e => some e.github_ref

/-- C6 counterexample input: an open unmigrated epic. -/
def epicOpen : Issue :=
  { number := 3, title := "Epic", body := some "", url := "https://github.com/o/r/issues/3",
    state := "OPEN", issue_type := some "Epic" }

/-- C6 counterexample input: a closed child with no destination reference. -/
def subClosed : Issue :=
  { number := 4, title := "Done child", body := some "",
    url := "https://github.com/o/r/issues/4", state := "CLOSED", issue_type := none }

/-- C6 repo config. -/
def repoC6 : RepoConfig :=
  { github := "o/r", jira_pref := "P", scylla_components := "Comp", rules := [],
    github_title_strip := none }

/-- C6 configuration. -/
def cfgC6 : Config :=
  { jira_project := "PRJ", repos := [repoC6], type_mapping := [],
    default_worktype := none, github_title_strip := none }

/-- C6 counterexample: a closed child carrying no destination reference is
NOT dropped — the plan contains a create entry for it (second entry,
referencing the child's URL), contradicting the claimed closed-child
drop. -/
theorem C6_closed_child_counterexample :
    subClosed.state = "CLOSED" ∧ detect_jira_link subClosed.body = none ∧
    (build_plan none (scan_repo [(epicOpen, [subClosed])]) cfgC6 []).map
      (fun plan => plan.map itemRef) =
      .ok [some ("https://github.com/o/r/issues/3"),
        some ("https://github.com/o/r/issues/4")] := by
  refine ⟨rfl, rfl, ?_⟩
  decide

/-- C6 (amended): a child item under a retained top-level item is
classified like a top-level item for the migrated-vs-create decision, with
the destination type from the type-name lookup table and the parent
linkage resolved from the epic (direct key when migrated, pending URL
reference otherwise) — but, unlike a top-level item, a child is never
dropped for being closed: the emitted entry does not depend on the child's
lifecycle state, so an unreferenced closed child still yields a
create/fail entry whenever its repo config resolves. -/
theorem C6_child_classification (checker : Option Checker) (config : Config)
    (missing : List String) (epicKey : Option String) (epicUrl : String)
    (sub : Issue) :
    (∀ (subKey : Option String) (s1 s2 : String),
      planForSub checker config missing epicKey epicUrl { sub with state := s1 } subKey =
        planForSub checker config missing epicKey epicUrl { sub with state := s2 } subKey) ∧
    (∀ effective, repo_config_for_url sub.url config = some effective →
      ∃ e, planForSub checker config missing epicKey epicUrl sub none =
          .ok (some (.issue e)) ∧
        e.github_ref = sub.url ∧
        e.jira_issue_type = some ((lookupAssoc config.type_mapping
          ((sub.issue_type).getD "")).getD (config.default_worktype.getD "Task")) ∧
        ((resolve_rule sub.title effective config).2.1 ∈ missing →
          e.action = failAction (resolve_rule sub.title effective config).2.1) ∧
        ((resolve_rule sub.title effective config).2.1 ∉ missing →
          e.action = "create") ∧
        (∀ k, epicKey = some k → e.jira_parent = some k) ∧
        (epicKey = none → e.jira_parent_github = some epicUrl)) := by
  constructor
  · intro subKey s1 s2
    rfl
  · intro effective hcfg
    refine ⟨subCreateEntry config missing epicKey epicUrl sub effective, ?_, ?_, ?_, ?_, ?_, ?_, ?_⟩
    · show (match repo_config_for_url sub.url config with
        | none => (.ok none : Except String (Option PlanItem))
        | some effective => .ok (some (.issue
            (subCreateEntry config missing epicKey epicUrl sub effective)))) =
        .ok (some (.issue (subCreateEntry config missing epicKey epicUrl sub effective)))
      rw [hcfg]
    · unfold subCreateEntry
      cases epicKey <;>
        by_cases hm : (resolve_rule sub.title effective config).2.1 ∈ missing <;>
        simp [hm]
    · unfold subCreateEntry
      cases epicKey <;>
        by_cases hm : (resolve_rule sub.title effective config).2.1 ∈ missing <;>
        simp [hm]
    · intro hm
      unfold subCreateEntry
      cases epicKey <;> simp [hm]
    · intro hm
      unfold subCreateEntry
      cases epicKey <;> simp [hm]
    · intro k hk
      subst hk
      unfold subCreateEntry
      by_cases hm : (resolve_rule sub.title effective config).2.1 ∈ missing <;> simp [hm]
    · intro hk
      subst hk
      unfold subCreateEntry
      by_cases hm : (resolve_rule sub.title effective config).2.1 ∈ missing <;> simp [hm]

/-- C6 witness: the amended theorem applied at a concrete closed child —
the entry is state-independent and the closed child yields a create
entry. -/
theorem C6_child_classification_witness :
    subClosed.state = "CLOSED" ∧
    planForSub none cfgC6 [] none (epicOpen.url) { subClosed with state := "CLOSED" } none =
      planForSub none cfgC6 [] none (epicOpen.url) { subClosed with state := "OPEN" } none ∧
    planForSub none cfgC6 [] none (epicOpen.url) subClosed none =
      .ok (some (.issue (subCreateEntry cfgC6 [] none (epicOpen.url) subClosed repoC6))) :=
  ⟨rfl,
   (C6_child_classification none cfgC6 [] none (epicOpen.url) subClosed).1 none
     ("CLOSED") ("OPEN"),
   by decide⟩

/-- Once a value's lowercase form is in the (lowercased) existing set, the
executor's category-option pass never creates it, whatever the plan: the
set only grows during the pass. -/
theorem field_options_skip (v : String) :
    ∀ (plan : List PlanItem) (existingLower : List String),
      pyLower v ∈ existingLower → v ∉ field_options_created existingLower plan := by
  intro plan
  induction plan with
  | nil =>
    intro ex h
    simp [field_options_created]
  | cons it rest ih =>
    intro ex h
    cases it with
    | issue e =>
      show v ∉ field_options_created ex rest
      exact ih ex h
    | fieldOption f value =>
      show v ∉ (if pyLower value ∈ ex then field_options_created ex rest
        else value :: field_options_created (pyLower value :: ex) rest)
      by_cases hv : pyLower value ∈ ex
      · rw [if_pos hv]
        exact ih ex h
      · rw [if_neg hv]
        intro hmem
        rcases List.mem_cons.mp hmem with heq | hmem2
        · subst heq
          exact hv h
        · exact ih (pyLower value :: ex) (by simp [h]) hmem2

/-- C10: the category gap detector compares required values against the
existing options case-sensitively, while the executor's category-option
pass checks existence case-insensitively.  A required value differing from
an existing option only in letter case is therefore reported missing by
the detector (so without authorization its create entries are demoted),
yet the executor never creates it. -/
theorem C10_case_sensitivity (repos : List RepoConfig) (existing : List String)
    (v : String) (hreq : v ∈ required_components repos) (habs : v ∉ existing)
    (hcase : pyLower v ∈ existing.map pyLower) :
    v ∈ find_missing_components repos existing ∧
    ∀ plan : List PlanItem, v ∉ _execute_field_options_created plan existing := by
  constructor
  · unfold find_missing_components
    rw [mem_sortStr, List.mem_filter]
    exact ⟨List.mem_dedup.mpr hreq, by simp [habs]⟩
  · intro plan
    exact field_options_skip v plan (existing.map pyLower) hcase

/-- C10 repo config: requires the component value `Driver`. -/
def repoC10 : RepoConfig :=
  { github := "o/r2", jira_pref := "P", scylla_components := "Driver", rules := [],
    github_title_strip := none }

/-- C10 witness: with existing option `driver`, the detector reports
`Driver` missing while the executor creates nothing for it. -/
theorem C10_case_sensitivity_witness :
    "Driver" ∈ find_missing_components [repoC10] ["driver"] ∧
    "Driver" ∉ _execute_field_options_created
      (build_field_plan (find_missing_components [repoC10] ["driver"])) ["driver"] :=
  ⟨(C10_case_sensitivity [repoC10] ["driver"] ("Driver") (by decide) (by decide)
      (by decide)).1,
   (C10_case_sensitivity [repoC10] ["driver"] ("Driver") (by decide) (by decide)
      (by decide)).2 (build_field_plan (find_missing_components [repoC10] ["driver"]))⟩

/-- The skip entry produced for a migrated item whose destination issue no
longer exists (404). -/
def skipNotFoundEntry (epic : Issue) (key : String) : PlanEntry :=
  { action := "skip", github_ref := epic.url, github_title := epic.title,
    jira_key := some key, reason := some ("Jira issue " ++ key ++ " not found") }

theorem check_update_404 (sha : String → String) (get_issue : String → FetchResult)
    (body : Option String) (key : String) (hg : get_issue key = .httpError 404) :
    _check_update_needed sha get_issue body key =
      .ok ("skip", "Jira issue " ++ key ++ " not found") := by
  unfold _check_update_needed
  rw [hg]

theorem check_update_httpError (sha : String → String) (get_issue : String → FetchResult)
    (body : Option String) (key : String) (s : Nat) (hg : get_issue key = .httpError s)
    (h404 : ¬ s = 404) :
    _check_update_needed sha get_issue body key = .error ("HTTPError " ++ toString s) := by
  unfold _check_update_needed
  rw [hg]
  split
  · rename_i heq
    exact absurd (FetchResult.httpError.inj heq) h404
  · rename_i status heq
    rw [FetchResult.httpError.inj heq]
  · rename_i issue heq
    exact FetchResult.noConfusion heq

theorem check_update_success (sha : String → String) (get_issue : String → FetchResult)
    (body : Option String) (key : String) (issue : JVal)
    (hg : get_issue key = .success issue) :
    _check_update_needed sha get_issue body key =
      (storedFingerprint issue >>= fun stored =>
        match stored with
        | none => .ok (("skip", "Already migrated (no hash)") : String × String)
        | some h =>
          if h = compute_body_hash sha body then
            .ok (("skip", "Already migrated (hash matches)") : String × String)
          else
            .ok (("update", "Description changed (hash mismatch)") : String × String)) := by
  unfold _check_update_needed
  rw [hg]

/-- C8: update-check classification.  For an already-migrated item the
check returns `update` exactly when a fingerprint is extracted from the
destination description and differs from the hash of the current source
body; it returns `skip` exactly when the destination item is not found
(404), no fingerprint is extractable (null), or the fingerprint equals the
current hash; and the not-found case is non-fatal: inside `build_plan` the
item yields a skip entry with an explanatory reason and the remaining
items are still processed. -/
theorem C8_update_check (sha : String → String) (get_issue : String → FetchResult)
    (body : Option String) (key : String) :
    ((∃ r, _check_update_needed sha get_issue body key = .ok ("update", r)) ↔
      (∃ issue h, get_issue key = .success issue ∧
        storedFingerprint issue = .ok (some h) ∧
        h ≠ compute_body_hash sha body)) ∧
    ((∃ r, _check_update_needed sha get_issue body key = .ok ("skip", r)) ↔
      (get_issue key = .httpError 404 ∨
       (∃ issue, get_issue key = .success issue ∧ storedFingerprint issue = .ok none) ∨
       (∃ issue, get_issue key = .success issue ∧
         storedFingerprint issue = .ok (some (compute_body_hash sha body))))) ∧
    (get_issue key = .httpError 404 →
      _check_update_needed sha get_issue body key =
        .ok ("skip", "Jira issue " ++ key ++ " not found") ∧
      ∀ (epic : Issue) (restScan : List ScanEntry) (config : Config)
        (missing : List String),
        build_plan (some (_check_update_needed sha get_issue))
          ({ epic := epic, jira_key := some key, sub_issues := [] } :: restScan)
          config missing =
        (build_plan (some (_check_update_needed sha get_issue)) restScan config
          missing).map
          (fun p => .issue (skipNotFoundEntry epic key) :: p)) := by
  cases hg : get_issue key with
  | httpError s =>
    by_cases h404 : s = 404
    · subst h404
      have hc := check_update_404 sha get_issue body key hg
      refine ⟨?_, ?_, ?_⟩
      · constructor
        · rintro ⟨r, hr⟩
          rw [hc] at hr
          injection hr with hr2
          rw [Prod.mk.injEq] at hr2
          exact absurd hr2.1 (by decide)
        · rintro ⟨issue, h, hsucc, _⟩
          exact FetchResult.noConfusion hsucc
      · constructor
        · intro _
          exact Or.inl rfl
        · intro _
          exact ⟨"Jira issue " ++ key ++ " not found", hc⟩
      · intro _
        refine ⟨hc, ?_⟩
        intro epic restScan config missing
        have hmig : migratedEntry (some (_check_update_needed sha get_issue)) epic key =
            .ok (skipNotFoundEntry epic key) := by
          show ((_check_update_needed sha get_issue epic.body key) >>= fun ar =>
            (.ok (if ar.1 = "update" then
              { action := ar.1, github_ref := epic.url, github_title := epic.title,
                jira_key := some key, reason := some ar.2,
                github_body := epic.body }
              else
              { action := ar.1, github_ref := epic.url, github_title := epic.title,
                jira_key := some key, reason := some ar.2 }) :
                Except String PlanEntry)) = _
          rw [check_update_404 sha get_issue epic.body key hg, bindDo_ok]
          rfl
        have hgrp : planForGroup (some (_check_update_needed sha get_issue)) config
            missing { epic := epic, jira_key := some key, sub_issues := [] } =
            .ok [.issue (skipNotFoundEntry epic key)] := by
          show ((migratedEntry (some (_check_update_needed sha get_issue)) epic key) >>=
            fun e => (planForSubs (some (_check_update_needed sha get_issue)) config
              missing (some key) epic.url []) >>= fun subItems =>
              (.ok (PlanItem.issue e :: subItems) : Except String (List PlanItem))) = _
          rw [hmig, bindDo_ok]
          rfl
        show ((planForGroup (some (_check_update_needed sha get_issue)) config missing
          { epic := epic, jira_key := some key, sub_issues := [] }) >>= fun items =>
          (build_plan (some (_check_update_needed sha get_issue)) restScan config
            missing) >>= fun others =>
          (.ok (items ++ others) : Except String (List PlanItem))) = _
        rw [hgrp, bindDo_ok]
        cases hb : build_plan (some (_check_update_needed sha get_issue)) restScan
            config missing with
        | error e => rfl
        | ok others => rfl
    · have hc := check_update_httpError sha get_issue body key s hg h404
      refine ⟨?_, ?_, ?_⟩
      · constructor
        · rintro ⟨r, hr⟩
          rw [hc] at hr
          exact Except.noConfusion hr
        · rintro ⟨issue, h, hsucc, _⟩
          exact FetchResult.noConfusion hsucc
      · constructor
        · rintro ⟨r, hr⟩
          rw [hc] at hr
          exact Except.noConfusion hr
        · rintro (h4 | ⟨issue, hsucc, _⟩ | ⟨issue, hsucc, _⟩)
          · exact absurd (FetchResult.httpError.inj h4) h404
          · exact FetchResult.noConfusion hsucc
          · exact FetchResult.noConfusion hsucc
      · intro h4
        exact absurd (FetchResult.httpError.inj h4) h404
  | success issue =>
    have hc := check_update_success sha get_issue body key issue hg
    cases hs : storedFingerprint issue with
    | error e =>
      have hc2 : _check_update_needed sha get_issue body key = .error e := by
        rw [hc, hs]
        rfl
      refine ⟨?_, ?_, ?_⟩
      · constructor
        · rintro ⟨r, hr⟩
          rw [hc2] at hr
          exact Except.noConfusion hr
        · rintro ⟨issue2, h, hsucc, hst, _⟩
          rw [FetchResult.success.inj hsucc] at hs
          rw [hs] at hst
          exact Except.noConfusion hst
      · constructor
        · rintro ⟨r, hr⟩
          rw [hc2] at hr
          exact Except.noConfusion hr
        · rintro (h4 | ⟨issue2, hsucc, hst⟩ | ⟨issue2, hsucc, hst⟩)
          · exact FetchResult.noConfusion h4
          · rw [FetchResult.success.inj hsucc] at hs
            rw [hs] at hst
            exact Except.noConfusion hst
          · rw [FetchResult.success.inj hsucc] at hs
            rw [hs] at hst
            exact Except.noConfusion hst
      · intro h4
        exact FetchResult.noConfusion h4
    | ok stored =>
      cases stored with
      | none =>
        have hc2 : _check_update_needed sha get_issue body key =
            .ok ("skip", "Already migrated (no hash)") := by
          rw [hc, hs]
          rfl
        refine ⟨?_, ?_, ?_⟩
        · constructor
          · rintro ⟨r, hr⟩
            rw [hc2] at hr
            injection hr with hr2
            rw [Prod.mk.injEq] at hr2
            exact absurd hr2.1 (by decide)
          · rintro ⟨issue2, h, hsucc, hst, _⟩
            rw [FetchResult.success.inj hsucc] at hs
            rw [hs] at hst
            injection hst with hst2
            exact Option.noConfusion hst2
        · constructor
          · intro _
            exact Or.inr (Or.inl ⟨issue, rfl, hs⟩)
          · intro _
            exact ⟨"Already migrated (no hash)", hc2⟩
        · intro h4
          exact FetchResult.noConfusion h4
      | some h =>
        by_cases hh : h = compute_body_hash sha body
        · have hc2 : _check_update_needed sha get_issue body key =
              .ok ("skip", "Already migrated (hash matches)") := by
            rw [hc, hs]
            show (if h = compute_body_hash sha body then
              (.ok (("skip", "Already migrated (hash matches)") : String × String) :
                Except String (String × String))
              else
              .ok (("update", "Description changed (hash mismatch)") : String × String)) = _
            rw [if_pos hh]
          refine ⟨?_, ?_, ?_⟩
          · constructor
            · rintro ⟨r, hr⟩
              rw [hc2] at hr
              injection hr with hr2
              rw [Prod.mk.injEq] at hr2
              exact absurd hr2.1 (by decide)
            · rintro ⟨issue2, h2, hsucc, hst, hne⟩
              rw [FetchResult.success.inj hsucc] at hs
              rw [hs] at hst
              injection hst with hst2
              exact (hne (by rw [← Option.some.inj hst2, hh])).elim
          · constructor
            · intro _
              refine Or.inr (Or.inr ⟨issue, rfl, ?_⟩)
              rw [hs, hh]
            · intro _
              exact ⟨"Already migrated (hash matches)", hc2⟩
          · intro h4
            exact FetchResult.noConfusion h4
        · have hc2 : _check_update_needed sha get_issue body key =
              .ok ("update", "Description changed (hash mismatch)") := by
            rw [hc, hs]
            show (if h = compute_body_hash sha body then
              (.ok (("skip", "Already migrated (hash matches)") : String × String) :
                Except String (String × String))
              else
              .ok (("update", "Description changed (hash mismatch)") : String × String)) = _
            rw [if_neg hh]
          refine ⟨?_, ?_, ?_⟩
          · constructor
            · intro _
              exact ⟨issue, h, rfl, hs, hh⟩
            · intro _
              exact ⟨"Description changed (hash mismatch)", hc2⟩
          · constructor
            · rintro ⟨r, hr⟩
              rw [hc2] at hr
              injection hr with hr2
              rw [Prod.mk.injEq] at hr2
              exact absurd hr2.1 (by decide)
            · rintro (h4 | ⟨issue2, hsucc, hst⟩ | ⟨issue2, hsucc, hst⟩)
              · exact FetchResult.noConfusion h4
              · rw [FetchResult.success.inj hsucc] at hs
                rw [hs] at hst
                injection hst with hst2
                exact Option.noConfusion hst2
              · rw [FetchResult.success.inj hsucc] at hs
                rw [hs] at hst
                injection hst with hst2
                exact (hh (Option.some.inj hst2)).elim
          · intro h4
            exact FetchResult.noConfusion h4

/-- C8 witness input: a migrated epic whose destination key
no longer resolves. -/
def epicK : Issue :=
  { number := 9, title := "Migrated epic", body := some ("Jira Link: [PRJ-9]"),
    url := "https://github.com/o/r/issues/9", state := "OPEN", issue_type := some "Epic" }

/-- C8 witness: the classification theorem applied at a not-found
destination — the check yields a non-fatal skip with an explanatory
reason, and the plan still contains the skip entry. -/
theorem C8_update_check_witness :
    _check_update_needed (fun _ => "") (fun _ => .httpError 404) none ("K") =
      .ok ("skip", "Jira issue " ++ "K" ++ " not found") ∧
    build_plan (some (_check_update_needed (fun _ => "") (fun _ => .httpError 404)))
      [{ epic := epicK, jira_key := some ("K"), sub_issues := [] }] cfgC6 [] =
      .ok [.issue (skipNotFoundEntry epicK ("K"))] := by
  refine ⟨((C8_update_check (fun _ => "") (fun _ => .httpError 404) none ("K")).2.2
    rfl).1, ?_⟩
  have h := ((C8_update_check (fun _ => "") (fun _ => .httpError 404) none ("K")).2.2
    rfl).2 epicK [] cfgC6 []
  rw [h]
  rfl

/-- The only effect of the missing-component set on `build_plan`: a create
entry whose resolved component value is missing has its action demoted to
the `fail:` string; every other field and every other entry is untouched. -/
def demote (missing : List String) : PlanItem → PlanItem
  | .issue e =>
    match e.scylla_components with
    | some c =>
      if e.action = "create" ∧ c ∈ missing then .issue { e with action := failAction c }
      else .issue e
    | none => .issue e
  | it => it

theorem migratedEntry_scylla (checker : Option Checker) (it : Issue) (key : String)
    (e : PlanEntry) (h : migratedEntry checker it key = .ok e) :
    e.scylla_components = none := by
  unfold migratedEntry at h
  rw [exBind_eq_ok] at h
  obtain ⟨ar, _, hf⟩ := h
  injection hf with hf2
  by_cases hu : ar.1 = "update"
  · rw [← hf2, if_pos hu]
  · rw [← hf2, if_neg hu]

theorem subCreateEntry_demote (config : Config) (missing : List String)
    (epicKey : Option String) (epicUrl : String) (sub : Issue) (eff : RepoConfig) :
    PlanItem.issue (subCreateEntry config missing epicKey epicUrl sub eff) =
      demote missing (.issue (subCreateEntry config [] epicKey epicUrl sub eff)) := by
  unfold subCreateEntry demote
  cases epicKey with
  | none =>
    by_cases hm : (resolve_rule sub.title eff config).2.1 ∈ missing
    · simp [hm]
    · simp [hm]
  | some k =>
    by_cases hm : (resolve_rule sub.title eff config).2.1 ∈ missing
    · simp [hm]
    · simp [hm]

theorem epicCreateEntry_demote (config : Config) (missing : List String)
    (epic : Issue) (eff : RepoConfig) :
    PlanItem.issue (epicCreateEntry config missing epic eff) =
      demote missing (.issue (epicCreateEntry config [] epic eff)) := by
  unfold epicCreateEntry demote
  by_cases hm : (resolve_rule epic.title eff config).2.1 ∈ missing
  · simp [hm]
  · simp [hm]

theorem planForSub_demote (checker : Option Checker) (config : Config)
    (missing : List String) (ek : Option String) (eu : String) (sub : Issue)
    (sk : Option String) :
    planForSub checker config missing ek eu sub sk =
      Except.map (Option.map (demote missing))
        (planForSub checker config [] ek eu sub sk) := by
  cases sk with
  | some key =>
    show ((migratedEntry checker sub key) >>= fun e =>
        (.ok (some (PlanItem.issue e)) : Except String (Option PlanItem))) =
      Except.map (Option.map (demote missing))
        ((migratedEntry checker sub key) >>= fun e =>
          (.ok (some (PlanItem.issue e)) : Except String (Option PlanItem)))
    cases hme : migratedEntry checker sub key with
    | error er => rfl
    | ok e =>
      show (.ok (some (PlanItem.issue e)) : Except String (Option PlanItem)) =
        .ok (some (demote missing (.issue e)))
      have hd : demote missing (.issue e) = .issue e := by
        unfold demote
        simp only [migratedEntry_scylla checker sub key e hme]
      rw [hd]
  | none =>
    show (match repo_config_for_url sub.url config with
      | none => (.ok none : Except String (Option PlanItem))
      | some eff => .ok (some (.issue (subCreateEntry config missing ek eu sub eff)))) =
      Except.map (Option.map (demote missing))
        (match repo_config_for_url sub.url config with
         | none => (.ok none : Except String (Option PlanItem))
         | some eff => .ok (some (.issue (subCreateEntry config [] ek eu sub eff))))
    cases hcfg : repo_config_for_url sub.url config with
    | none => rfl
    | some eff =>
      show (.ok (some (.issue (subCreateEntry config missing ek eu sub eff))) :
          Except String (Option PlanItem)) =
        .ok (some (demote missing (.issue (subCreateEntry config [] ek eu sub eff))))
      rw [subCreateEntry_demote]

theorem planForSubs_demote (checker : Option Checker) (config : Config)
    (missing : List String) (ek : Option String) (eu : String)
    (subs : List (Issue × Option String)) :
    planForSubs checker config missing ek eu subs =
      Except.map (List.map (demote missing))
        (planForSubs checker config [] ek eu subs) := by
  induction subs with
  | nil => rfl
  | cons p rest ih =>
    obtain ⟨sub, sk⟩ := p
    show ((planForSub checker config missing ek eu sub sk) >>= fun item =>
        (planForSubs checker config missing ek eu rest) >>= fun others =>
        (.ok (match item with
              | some it => it :: others
              | none => others) : Except String (List PlanItem))) =
      Except.map (List.map (demote missing))
        ((planForSub checker config [] ek eu sub sk) >>= fun item =>
          (planForSubs checker config [] ek eu rest) >>= fun others =>
          (.ok (match item with
                | some it => it :: others
                | none => others) : Except String (List PlanItem)))
    rw [planForSub_demote checker config missing ek eu sub sk, ih]
    cases hps : planForSub checker config [] ek eu sub sk with
    | error e => rfl
    | ok item =>
      cases hrest : planForSubs checker config [] ek eu rest with
      | error e => rfl
      | ok others =>
        cases item with
        | none => rfl
        | some it => rfl

theorem planForGroup_demote (checker : Option Checker) (config : Config)
    (missing : List String) (entry : ScanEntry) :
    planForGroup checker config missing entry =
      Except.map (List.map (demote missing))
        (planForGroup checker config [] entry) := by
  show (match entry.jira_key with
    | some key =>
      (migratedEntry checker entry.epic key) >>= fun e =>
      (planForSubs checker config missing entry.jira_key entry.epic.url
        entry.sub_issues) >>= fun subItems =>
      (.ok (PlanItem.issue e :: subItems) : Except String (List PlanItem))
    | none =>
      match repo_config_for_url entry.epic.url config with
      | none => (.ok [] : Except String (List PlanItem))
      | some effective =>
        (planForSubs checker config missing entry.jira_key entry.epic.url
          entry.sub_issues) >>= fun subItems =>
        .ok (PlanItem.issue (epicCreateEntry config missing entry.epic effective)
          :: subItems)) =
    Except.map (List.map (demote missing))
      (match entry.jira_key with
       | some key =>
         (migratedEntry checker entry.epic key) >>= fun e =>
         (planForSubs checker config [] entry.jira_key entry.epic.url
           entry.sub_issues) >>= fun subItems =>
         (.ok (PlanItem.issue e :: subItems) : Except String (List PlanItem))
       | none =>
         match repo_config_for_url entry.epic.url config with
         | none => (.ok [] : Except String (List PlanItem))
         | some effective =>
           (planForSubs checker config [] entry.jira_key entry.epic.url
             entry.sub_issues) >>= fun subItems =>
           .ok (PlanItem.issue (epicCreateEntry config [] entry.epic effective)
             :: subItems))
  cases hk : entry.jira_key with
  | some key =>
    show ((migratedEntry checker entry.epic key) >>= fun e =>
        (planForSubs checker config missing (some key) entry.epic.url
          entry.sub_issues) >>= fun subItems =>
        (.ok (PlanItem.issue e :: subItems) : Except String (List PlanItem))) =
      Except.map (List.map (demote missing))
        ((migratedEntry checker entry.epic key) >>= fun e =>
          (planForSubs checker config [] (some key) entry.epic.url
            entry.sub_issues) >>= fun subItems =>
          (.ok (PlanItem.issue e :: subItems) : Except String (List PlanItem)))
    rw [planForSubs_demote checker config missing (some key) entry.epic.url
      entry.sub_issues]
    cases hme : migratedEntry checker entry.epic key with
    | error er => rfl
    | ok e =>
      cases hsubs : planForSubs checker config [] (some key) entry.epic.url
          entry.sub_issues with
      | error er => rfl
      | ok subItems =>
        show (.ok (PlanItem.issue e :: List.map (demote missing) subItems) :
            Except String (List PlanItem)) =
          .ok (List.map (demote missing) (PlanItem.issue e :: subItems))
        have hd : demote missing (.issue e) = .issue e := by
          unfold demote
          simp only [migratedEntry_scylla checker entry.epic key e hme]
        rw [List.map_cons, hd]
  | none =>
    show (match repo_config_for_url entry.epic.url config with
      | none => (.ok [] : Except String (List PlanItem))
      | some effective =>
        (planForSubs checker config missing none entry.epic.url
          entry.sub_issues) >>= fun subItems =>
        .ok (PlanItem.issue (epicCreateEntry config missing entry.epic effective)
          :: subItems)) =
      Except.map (List.map (demote missing))
        (match repo_config_for_url entry.epic.url config with
         | none => (.ok [] : Except String (List PlanItem))
         | some effective =>
           (planForSubs checker config [] none entry.epic.url
             entry.sub_issues) >>= fun subItems =>
           .ok (PlanItem.issue (epicCreateEntry config [] entry.epic effective)
             :: subItems))
    cases hcfg : repo_config_for_url entry.epic.url config with
    | none => rfl
    | some effective =>
      show ((planForSubs checker config missing none entry.epic.url
          entry.sub_issues) >>= fun subItems =>
        (.ok (PlanItem.issue (epicCreateEntry config missing entry.epic effective)
          :: subItems) : Except String (List PlanItem))) =
        Except.map (List.map (demote missing))
          ((planForSubs checker config [] none entry.epic.url
            entry.sub_issues) >>= fun subItems =>
          (.ok (PlanItem.issue (epicCreateEntry config [] entry.epic effective)
            :: subItems) : Except String (List PlanItem)))
      rw [planForSubs_demote checker config missing none entry.epic.url
        entry.sub_issues]
      cases hsubs : planForSubs checker config [] none entry.epic.url
          entry.sub_issues with
      | error er => rfl
      | ok subItems =>
        show (.ok (PlanItem.issue (epicCreateEntry config missing entry.epic effective)
            :: List.map (demote missing) subItems) : Except String (List PlanItem)) =
          .ok (List.map (demote missing)
            (PlanItem.issue (epicCreateEntry config [] entry.epic effective) :: subItems))
        rw [List.map_cons, ← epicCreateEntry_demote]

theorem build_plan_demote (checker : Option Checker) (config : Config)
    (missing : List String) (scan : List ScanEntry) :
    build_plan checker scan config missing =
      Except.map (List.map (demote missing))
        (build_plan checker scan config []) := by
  induction scan with
  | nil => rfl
  | cons entry rest ih =>
    show ((planForGroup checker config missing entry) >>= fun items =>
        (build_plan checker rest config missing) >>= fun others =>
        (.ok (items ++ others) : Except String (List PlanItem))) =
      Except.map (List.map (demote missing))
        ((planForGroup checker config [] entry) >>= fun items =>
          (build_plan checker rest config []) >>= fun others =>
          (.ok (items ++ others) : Except String (List PlanItem)))
    rw [planForGroup_demote checker config missing entry, ih]
    cases hg : planForGroup checker config [] entry with
    | error er => rfl
    | ok items =>
      cases hb : build_plan checker rest config [] with
      | error er => rfl
      | ok others =>
        show (.ok (List.map (demote missing) items ++ List.map (demote missing) others) :
            Except String (List PlanItem)) =
          .ok (List.map (demote missing) (items ++ others))
        rw [List.map_append]

theorem mainLoop_demote (checker : Option Checker) (config : Config)
    (missing : List String)
    (fetched : List (RepoConfig × List (Issue × List Issue))) :
    mainLoop checker config missing fetched =
      Except.map (List.map (demote missing))
        (mainLoop checker config [] fetched) := by
  induction fetched with
  | nil => rfl
  | cons rc rest ih =>
    obtain ⟨rcfg, groups⟩ := rc
    show ((build_plan checker (scan_repo groups) config missing) >>= fun p =>
        (mainLoop checker config missing rest) >>= fun others =>
        (.ok (p ++ others) : Except String (List PlanItem))) =
      Except.map (List.map (demote missing))
        ((build_plan checker (scan_repo groups) config []) >>= fun p =>
          (mainLoop checker config [] rest) >>= fun others =>
          (.ok (p ++ others) : Except String (List PlanItem)))
    rw [build_plan_demote checker config missing (scan_repo groups), ih]
    cases hb : build_plan checker (scan_repo groups) config [] with
    | error er => rfl
    | ok p =>
      cases hm : mainLoop checker config [] rest with
      | error er => rfl
      | ok others =>
        show (.ok (List.map (demote missing) p ++ List.map (demote missing) others) :
            Except String (List PlanItem)) =
          .ok (List.map (demote missing) (p ++ others))
        rw [List.map_append]

/-! ### C3: category gating -/

/-- Shape of the items an issue plan built with an empty demotion set can
hold: always an issue entry, and when it carries a resolved component the
action is `create`. -/
abbrev itemCreateShaped (it : PlanItem) : Prop :=
  ∃ e, it = PlanItem.issue e ∧
    ∀ c, e.scylla_components = some c → e.action = "create"

theorem subCreateEntry_nomiss (config : Config) (ek : Option String) (eu : String)
    (sub : Issue) (eff : RepoConfig) :
    (subCreateEntry config [] ek eu sub eff).action = "create" := by
  unfold subCreateEntry
  cases ek <;> simp

theorem epicCreateEntry_nomiss (config : Config) (epic : Issue) (eff : RepoConfig) :
    (epicCreateEntry config [] epic eff).action = "create" := by
  unfold epicCreateEntry
  simp

theorem planForSub_shape (checker : Option Checker) (config : Config)
    (ek : Option String) (eu : String) (sub : Issue) (sk : Option String)
    (item : Option PlanItem)
    (h : planForSub checker config [] ek eu sub sk = .ok item) :
    ∀ it, item = some it → itemCreateShaped it := by
  intro it hit
  cases sk with
  | some key =>
    replace h : ((migratedEntry checker sub key) >>= fun e =>
        (.ok (some (PlanItem.issue e)) : Except String (Option PlanItem))) =
      .ok item := h
    rw [exBind_eq_ok] at h
    obtain ⟨e, hme, hok⟩ := h
    injection hok with h2
    rw [← h2] at hit
    injection hit with h3
    refine ⟨e, h3.symm, ?_⟩
    intro c hc
    rw [migratedEntry_scylla checker sub key e hme] at hc
    exact Option.noConfusion hc
  | none =>
    replace h : (match repo_config_for_url sub.url config with
      | none => (.ok none : Except String (Option PlanItem))
      | some eff =>
        .ok (some (PlanItem.issue (subCreateEntry config [] ek eu sub eff)))) =
      .ok item := h
    cases hcfg : repo_config_for_url sub.url config with
    | none =>
      simp only [hcfg] at h
      injection h with h2
      rw [← h2] at hit
      exact Option.noConfusion hit
    | some eff =>
      simp only [hcfg] at h
      injection h with h2
      rw [← h2] at hit
      injection hit with h3
      refine ⟨subCreateEntry config [] ek eu sub eff, h3.symm, ?_⟩
      intro c _
      exact subCreateEntry_nomiss config ek eu sub eff

theorem planForSubs_shape (checker : Option Checker) (config : Config)
    (ek : Option String) (eu : String) (subs : List (Issue × Option String))
    (items : List PlanItem)
    (h : planForSubs checker config [] ek eu subs = .ok items) :
    ∀ it ∈ items, itemCreateShaped it := by
  induction subs generalizing items with
  | nil =>
    replace h : (.ok [] : Except String (List PlanItem)) = .ok items := h
    injection h with h2
    intro it hit
    rw [← h2] at hit
    exact absurd hit (List.not_mem_nil it)
  | cons p rest ih =>
    obtain ⟨sub, sk⟩ := p
    replace h : ((planForSub checker config [] ek eu sub sk) >>= fun item =>
        (planForSubs checker config [] ek eu rest) >>= fun others =>
        (.ok (match item with
              | some it => it :: others
              | none => others) : Except String (List PlanItem))) = .ok items := h
    rw [exBind_eq_ok] at h
    obtain ⟨item, hps, h⟩ := h
    rw [exBind_eq_ok] at h
    obtain ⟨others, hrest, h⟩ := h
    injection h with h2
    intro it hit
    rw [← h2] at hit
    cases item with
    | none => exact ih others hrest it hit
    | some it0 =>
      rcases List.mem_cons.mp hit with h3 | h3
      · rw [h3]
        exact planForSub_shape checker config ek eu sub sk (some it0) hps it0 rfl
      · exact ih others hrest it h3

theorem planForGroup_shape (checker : Option Checker) (config : Config)
    (entry : ScanEntry) (items : List PlanItem)
    (h : planForGroup checker config [] entry = .ok items) :
    ∀ it ∈ items, itemCreateShaped it := by
  replace h : (match entry.jira_key with
    | some key =>
      (migratedEntry checker entry.epic key) >>= fun e =>
      (planForSubs checker config [] entry.jira_key entry.epic.url
        entry.sub_issues) >>= fun subItems =>
      (.ok (PlanItem.issue e :: subItems) : Except String (List PlanItem))
    | none =>
      match repo_config_for_url entry.epic.url config with
      | none => (.ok [] : Except String (List PlanItem))
      | some effective =>
        (planForSubs checker config [] entry.jira_key entry.epic.url
          entry.sub_issues) >>= fun subItems =>
        .ok (PlanItem.issue (epicCreateEntry config [] entry.epic effective)
          :: subItems)) = .ok items := h
  cases hk : entry.jira_key with
  | some key =>
    simp only [hk] at h
    rw [exBind_eq_ok] at h
    obtain ⟨e, hme, h⟩ := h
    rw [exBind_eq_ok] at h
    obtain ⟨subItems, hsubs, h⟩ := h
    injection h with h2
    intro it hit
    rw [← h2] at hit
    rcases List.mem_cons.mp hit with h3 | h3
    · refine ⟨e, h3, ?_⟩
      intro c hc
      rw [migratedEntry_scylla checker entry.epic key e hme] at hc
      exact Option.noConfusion hc
    · exact planForSubs_shape checker config (some key) entry.epic.url
        entry.sub_issues subItems hsubs it h3
  | none =>
    simp only [hk] at h
    cases hcfg : repo_config_for_url entry.epic.url config with
    | none =>
      simp only [hcfg] at h
      injection h with h2
      intro it hit
      rw [← h2] at hit
      exact absurd hit (List.not_mem_nil it)
    | some effective =>
      simp only [hcfg] at h
      rw [exBind_eq_ok] at h
      obtain ⟨subItems, hsubs, h⟩ := h
      injection h with h2
      intro it hit
      rw [← h2] at hit
      rcases List.mem_cons.mp hit with h3 | h3
      · refine ⟨epicCreateEntry config [] entry.epic effective, h3, ?_⟩
        intro c _
        exact epicCreateEntry_nomiss config entry.epic effective
      · exact planForSubs_shape checker config none entry.epic.url
          entry.sub_issues subItems hsubs it h3

theorem build_plan_shape (checker : Option Checker) (config : Config)
    (scan : List ScanEntry) (items : List PlanItem)
    (h : build_plan checker scan config [] = .ok items) :
    ∀ it ∈ items, itemCreateShaped it := by
  induction scan generalizing items with
  | nil =>
    replace h : (.ok [] : Except String (List PlanItem)) = .ok items := h
    injection h with h2
    intro it hit
    rw [← h2] at hit
    exact absurd hit (List.not_mem_nil it)
  | cons entry rest ih =>
    replace h : ((planForGroup checker config [] entry) >>= fun its =>
        (build_plan checker rest config []) >>= fun others =>
        (.ok (its ++ others) : Except String (List PlanItem))) = .ok items := h
    rw [exBind_eq_ok] at h
    obtain ⟨its, hg, h⟩ := h
    rw [exBind_eq_ok] at h
    obtain ⟨others, hb, h⟩ := h
    injection h with h2
    intro it hit
    rw [← h2] at hit
    rcases List.mem_append.mp hit with h3 | h3
    · exact planForGroup_shape checker config entry its hg it h3
    · exact ih others hb it h3

theorem mainLoop_shape (checker : Option Checker) (config : Config)
    (fetched : List (RepoConfig × List (Issue × List Issue)))
    (plan : List PlanItem)
    (h : mainLoop checker config [] fetched = .ok plan) :
    ∀ it ∈ plan, itemCreateShaped it := by
  induction fetched generalizing plan with
  | nil =>
    replace h : (.ok [] : Except String (List PlanItem)) = .ok plan := h
    injection h with h2
    intro it hit
    rw [← h2] at hit
    exact absurd hit (List.not_mem_nil it)
  | cons rc rest ih =>
    obtain ⟨rcfg, groups⟩ := rc
    replace h : ((build_plan checker (scan_repo groups) config []) >>= fun p =>
        (mainLoop checker config [] rest) >>= fun others =>
        (.ok (p ++ others) : Except String (List PlanItem))) = .ok plan := h
    rw [exBind_eq_ok] at h
    obtain ⟨p, hb, h⟩ := h
    rw [exBind_eq_ok] at h
    obtain ⟨others, hm, h⟩ := h
    injection h with h2
    intro it hit
    rw [← h2] at hit
    rcases List.mem_append.mp hit with h3 | h3
    · exact build_plan_shape checker config (scan_repo groups) p hb it h3
    · exact ih others hm it h3

theorem demote_ne_fieldOption (missing : List String) (e : PlanEntry)
    (f v : String) : demote missing (.issue e) ≠ .fieldOption f v := by
  show (match e.scylla_components with
    | some c =>
      if e.action = "create" ∧ c ∈ missing then
        PlanItem.issue { e with action := failAction c }
      else .issue e
    | none => PlanItem.issue e) ≠ .fieldOption f v
  split
  · split
    · exact fun hh => PlanItem.noConfusion hh
    · exact fun hh => PlanItem.noConfusion hh
  · exact fun hh => PlanItem.noConfusion hh

theorem demote_scylla_action (missing : List String) (e0 e : PlanEntry) (C : String)
    (hsh : ∀ c, e0.scylla_components = some c → e0.action = "create")
    (hd : demote missing (.issue e0) = .issue e)
    (hC : C ∈ missing)
    (hsc : e.scylla_components = some C) :
    e.action = failAction C := by
  replace hd : (match e0.scylla_components with
    | some c =>
      if e0.action = "create" ∧ c ∈ missing then
        PlanItem.issue { e0 with action := failAction c }
      else .issue e0
    | none => PlanItem.issue e0) = .issue e := hd
  cases hsc0 : e0.scylla_components with
  | none =>
    simp only [hsc0] at hd
    injection hd with hde
    rw [← hde, hsc0] at hsc
    exact Option.noConfusion hsc
  | some c =>
    have hact : e0.action = "create" := hsh c hsc0
    simp only [hsc0] at hd
    by_cases hcm : c ∈ missing
    · rw [if_pos ⟨hact, hcm⟩] at hd
      injection hd with hde
      subst hde
      have hcC : c = C := by
        have h4 : some c = some C := hsc
        injection h4
      show failAction c = failAction C
      rw [hcC]
    · rw [if_neg (fun hb => hcm hb.2)] at hd
      injection hd with hde
      subst hde
      have hcC : c = C := by
        rw [hsc0] at hsc
        injection hsc
      exact absurd hC (hcC ▸ hcm)

theorem mem_find_missing (repos : List RepoConfig) (existing : List String)
    (C : String) (hreq : C ∈ required_components repos) (habs : C ∉ existing) :
    C ∈ find_missing_components repos existing := by
  unfold find_missing_components
  rw [mem_sortStr, List.mem_filter]
  exact ⟨List.mem_dedup.mpr hreq, by simp [habs]⟩

theorem count_find_missing (repos : List RepoConfig) (existing : List String)
    (C : String) (hreq : C ∈ required_components repos) (habs : C ∉ existing) :
    (find_missing_components repos existing).count C = 1 := by
  unfold find_missing_components
  rw [count_sortStr]
  apply List.count_eq_one_of_mem
  · exact (List.nodup_dedup _).filter _
  · rw [List.mem_filter]
    exact ⟨List.mem_dedup.mpr hreq, by simp [habs]⟩

theorem main_plan_false (checker : Option Checker) (config : Config)
    (existing : List String)
    (fetched : List (RepoConfig × List (Issue × List Issue))) :
    main_plan checker config false existing fetched =
      mainLoop checker config (find_missing_components config.repos existing)
        fetched := by
  show ((mainLoop checker config
      (if (false : Bool) ∧ find_missing_components config.repos existing ≠ [] then []
       else find_missing_components config.repos existing) fetched) >>= fun plans =>
    (.ok ((if (false : Bool) ∧ find_missing_components config.repos existing ≠ []
        then build_field_plan (find_missing_components config.repos existing)
        else []) ++ plans) : Except String (List PlanItem))) = _
  rw [if_neg (fun hb => Bool.noConfusion hb.1),
    if_neg (fun hb => Bool.noConfusion hb.1)]
  cases hm : mainLoop checker config
      (find_missing_components config.repos existing) fetched with
  | error er => rfl
  | ok plans =>
    show (.ok ([] ++ plans) : Except String (List PlanItem)) = .ok plans
    rw [List.nil_append]

theorem main_plan_true (checker : Option Checker) (config : Config)
    (existing : List String)
    (fetched : List (RepoConfig × List (Issue × List Issue)))
    (hne : find_missing_components config.repos existing ≠ []) :
    main_plan checker config true existing fetched =
      (mainLoop checker config [] fetched) >>= fun plans =>
      .ok (build_field_plan (find_missing_components config.repos existing)
        ++ plans) := by
  show ((mainLoop checker config
      (if (true : Bool) ∧ find_missing_components config.repos existing ≠ [] then []
       else find_missing_components config.repos existing) fetched) >>= fun plans =>
    (.ok ((if (true : Bool) ∧ find_missing_components config.repos existing ≠ []
        then build_field_plan (find_missing_components config.repos existing)
        else []) ++ plans) : Except String (List PlanItem))) = _
  rw [if_pos ⟨rfl, hne⟩, if_pos ⟨rfl, hne⟩]

/-- C3: category gating.  With `C` required by some repo or rule of the
configuration and absent from the existing option set, `C` is detected as
missing, and: without authorization (`create_components = false`) the plan
holds no field-option entry at all — in particular none for `C` — and is
exactly the plan built with nothing missing with every create entry whose
resolved component is missing demoted to its `fail:` action (`demote`
rewrites only the `action` field, so all other fields are preserved), so
every issue entry whose component is `C` carries the `fail:` action; with
authorization (`create_components = true`) the plan holds exactly one
`create_field_option` entry for `C` and every issue entry whose component
is `C` keeps the action `create`. -/
theorem C3_category_gating (checker : Option Checker) (config : Config)
    (existing : List String) (C : String)
    (fetched : List (RepoConfig × List (Issue × List Issue)))
    (hreq : C ∈ required_components config.repos)
    (habs : C ∉ existing) :
    C ∈ find_missing_components config.repos existing ∧
    (∀ plan, main_plan checker config false existing fetched = .ok plan →
      (∀ f v, PlanItem.fieldOption f v ∉ plan) ∧
      ∃ plan0, mainLoop checker config [] fetched = .ok plan0 ∧
        plan = plan0.map
          (demote (find_missing_components config.repos existing)) ∧
        ∀ e, PlanItem.issue e ∈ plan → e.scylla_components = some C →
          e.action = failAction C) ∧
    (∀ plan, main_plan checker config true existing fetched = .ok plan →
      plan.count (PlanItem.fieldOption ("Scylla Components") C) = 1 ∧
      ∀ e, PlanItem.issue e ∈ plan → e.scylla_components = some C →
        e.action = "create") := by
  have hCm : C ∈ find_missing_components config.repos existing :=
    mem_find_missing config.repos existing C hreq habs
  have hne : find_missing_components config.repos existing ≠ [] := by
    intro h0
    rw [h0] at hCm
    exact absurd hCm (List.not_mem_nil C)
  refine ⟨hCm, ?_, ?_⟩
  · intro plan hp
    rw [main_plan_false, mainLoop_demote] at hp
    cases hm : mainLoop checker config [] fetched with
    | error er =>
      rw [hm] at hp
      exact Except.noConfusion hp
    | ok plan0 =>
      rw [hm] at hp
      replace hp : (.ok (plan0.map
          (demote (find_missing_components config.repos existing))) :
          Except String (List PlanItem)) = .ok plan := hp
      injection hp with hp2
      constructor
      · intro f v hmem
        rw [← hp2] at hmem
        obtain ⟨x, hx, hdx⟩ := List.mem_map.mp hmem
        obtain ⟨e, he, _⟩ := mainLoop_shape checker config fetched plan0 hm x hx
        rw [he] at hdx
        exact demote_ne_fieldOption _ e f v hdx
      · refine ⟨plan0, rfl, hp2.symm, ?_⟩
        intro e hmem hsc
        rw [← hp2] at hmem
        obtain ⟨x, hx, hdx⟩ := List.mem_map.mp hmem
        obtain ⟨e0, he0, hsh⟩ := mainLoop_shape checker config fetched plan0 hm x hx
        rw [he0] at hdx
        exact demote_scylla_action _ e0 e C hsh hdx hCm hsc
  · intro plan hp
    rw [main_plan_true checker config existing fetched hne] at hp
    cases hm : mainLoop checker config [] fetched with
    | error er =>
      rw [hm, bindDo_error] at hp
      exact Except.noConfusion hp
    | ok plans =>
      rw [hm, bindDo_ok] at hp
      injection hp with hp2
      have hshape := mainLoop_shape checker config fetched plans hm
      have hinj : Function.Injective
          (fun v => PlanItem.fieldOption ("Scylla Components") v) := by
        intro a b hab
        rw [PlanItem.fieldOption.injEq] at hab
        exact hab.2
      constructor
      · rw [← hp2, List.count_append]
        have h1 : (build_field_plan
            (find_missing_components config.repos existing)).count
            (PlanItem.fieldOption ("Scylla Components") C) = 1 := by
          show ((sortStr (find_missing_components config.repos existing)).map
            (fun v => PlanItem.fieldOption ("Scylla Components") v)).count
            (PlanItem.fieldOption ("Scylla Components") C) = 1
          rw [List.count_map_of_injective _ _ hinj C, count_sortStr]
          exact count_find_missing config.repos existing C hreq habs
        have h2 : plans.count (PlanItem.fieldOption ("Scylla Components") C) = 0 := by
          apply List.count_eq_zero_of_not_mem
          intro hmem
          obtain ⟨e, he, _⟩ := hshape _ hmem
          exact PlanItem.noConfusion he
        rw [h1, h2]
      · intro e hmem hsc
        rw [← hp2] at hmem
        rcases List.mem_append.mp hmem with hmem | hmem
        · replace hmem : PlanItem.issue e ∈
              (sortStr (find_missing_components config.repos existing)).map
              (fun v => PlanItem.fieldOption ("Scylla Components") v) := hmem
          obtain ⟨v, hv, hfv⟩ := List.mem_map.mp hmem
          exact PlanItem.noConfusion hfv
        · obtain ⟨e0, he0, hsh⟩ := hshape _ hmem
          injection he0 with he0e
          rw [he0e]
          exact hsh C (he0e ▸ hsc)

/-- A one-repo configuration requiring the component value `Comp`. -/
def repoC3 : RepoConfig :=
  { github := "o/r", jira_pref := "PX", scylla_components := "Comp",
    rules := [], github_title_strip := none }

/-- Configuration for the C3 witness. -/
def cfgC3 : Config :=
  { jira_project := "PROJ", repos := [repoC3], type_mapping := [],
    default_worktype := none, github_title_strip := none }

/-- Witness for C3 at a concrete configuration: `Comp` is required, absent
from an empty option set, and the gating conclusion holds. -/
theorem C3_category_gating_witness :
    (("Comp") ∈ required_components cfgC3.repos ∧
     ("Comp") ∉ ([] : List String)) ∧
    (("Comp") ∈ find_missing_components cfgC3.repos [] ∧
     (∀ plan, main_plan none cfgC3 false [] [] = .ok plan →
       (∀ f v, PlanItem.fieldOption f v ∉ plan) ∧
       ∃ plan0, mainLoop none cfgC3 [] [] = .ok plan0 ∧
         plan = plan0.map (demote (find_missing_components cfgC3.repos [])) ∧
         ∀ e, PlanItem.issue e ∈ plan →
           e.scylla_components = some ("Comp") →
           e.action = failAction ("Comp")) ∧
     (∀ plan, main_plan none cfgC3 true [] [] = .ok plan →
       plan.count (PlanItem.fieldOption ("Scylla Components") ("Comp")) = 1 ∧
       ∀ e, PlanItem.issue e ∈ plan →
         e.scylla_components = some ("Comp") →
         e.action = "create")) :=
  ⟨⟨by decide, by decide⟩,
   C3_category_gating none cfgC3 [] ("Comp") [] (by decide) (by decide)⟩

/-! ### C4: plan ordering -/

/-- What one scanned group contributes to the issue plan: nothing (skipped
group), or its top-level entry — referencing the epic's URL, and of
destination type `Epic` when the epic is not yet migrated — immediately
followed by its children's entries, each an issue entry referencing one of
the group's sub-issue URLs. -/
def groupBlockSpec (entry : ScanEntry) (blk : List PlanItem) : Prop :=
  blk = [] ∨
  ∃ e children, blk = PlanItem.issue e :: children ∧
    e.github_ref = entry.epic.url ∧
    (entry.jira_key = none → e.jira_issue_type = some ("Epic")) ∧
    ∀ it ∈ children, ∃ ce, it = PlanItem.issue ce ∧
      ce.github_ref ∈ entry.sub_issues.map (fun p => p.1.url)

theorem forall2_app {α β : Type} {R : α → β → Prop}
    {l1 c : List α} {l2 d : List β}
    (h1 : List.Forall₂ R l1 l2) (h2 : List.Forall₂ R c d) :
    List.Forall₂ R (l1 ++ c) (l2 ++ d) := by
  induction h1 with
  | nil => exact h2
  | cons hr _ ih => exact List.Forall₂.cons hr ih

theorem forall2_mem_right {α β : Type} {R : α → β → Prop}
    {l1 : List α} {l2 : List β}
    (h : List.Forall₂ R l1 l2) {b : β} (hb : b ∈ l2) : ∃ a, R a b := by
  induction h with
  | nil => exact absurd hb (List.not_mem_nil b)
  | cons hr _ ih =>
    rcases List.mem_cons.mp hb with h3 | h3
    · exact ⟨_, h3 ▸ hr⟩
    · exact ih h3

theorem migratedEntry_ref (checker : Option Checker) (it : Issue) (key : String)
    (e : PlanEntry) (h : migratedEntry checker it key = .ok e) :
    e.github_ref = it.url := by
  unfold migratedEntry at h
  rw [exBind_eq_ok] at h
  obtain ⟨ar, _, hf⟩ := h
  injection hf with hf2
  by_cases hu : ar.1 = "update"
  · rw [← hf2, if_pos hu]
  · rw [← hf2, if_neg hu]

theorem subCreateEntry_ref (config : Config) (missing : List String)
    (ek : Option String) (eu : String) (sub : Issue) (eff : RepoConfig) :
    (subCreateEntry config missing ek eu sub eff).github_ref = sub.url := by
  unfold subCreateEntry
  cases ek with
  | none =>
    by_cases hm : (resolve_rule sub.title eff config).2.1 ∈ missing
    · simp [hm]
    · simp [hm]
  | some k =>
    by_cases hm : (resolve_rule sub.title eff config).2.1 ∈ missing
    · simp [hm]
    · simp [hm]

theorem epicCreateEntry_ref (config : Config) (missing : List String)
    (epic : Issue) (eff : RepoConfig) :
    (epicCreateEntry config missing epic eff).github_ref = epic.url := by
  unfold epicCreateEntry
  by_cases hm : (resolve_rule epic.title eff config).2.1 ∈ missing
  · simp [hm]
  · simp [hm]

theorem epicCreateEntry_type (config : Config) (missing : List String)
    (epic : Issue) (eff : RepoConfig) :
    (epicCreateEntry config missing epic eff).jira_issue_type = some ("Epic") := by
  unfold epicCreateEntry
  by_cases hm : (resolve_rule epic.title eff config).2.1 ∈ missing
  · simp [hm]
  · simp [hm]

theorem planForSub_ref (checker : Option Checker) (config : Config)
    (missing : List String) (ek : Option String) (eu : String) (sub : Issue)
    (sk : Option String) (item : Option PlanItem)
    (h : planForSub checker config missing ek eu sub sk = .ok item) :
    ∀ it, item = some it → ∃ ce, it = PlanItem.issue ce ∧
      ce.github_ref = sub.url := by
  intro it hit
  cases sk with
  | some key =>
    replace h : ((migratedEntry checker sub key) >>= fun e =>
        (.ok (some (PlanItem.issue e)) : Except String (Option PlanItem))) =
      .ok item := h
    rw [exBind_eq_ok] at h
    obtain ⟨e, hme, hok⟩ := h
    injection hok with h2
    rw [← h2] at hit
    injection hit with h3
    exact ⟨e, h3.symm, migratedEntry_ref checker sub key e hme⟩
  | none =>
    replace h : (match repo_config_for_url sub.url config with
      | none => (.ok none : Except String (Option PlanItem))
      | some eff =>
        .ok (some (PlanItem.issue
          (subCreateEntry config missing ek eu sub eff)))) = .ok item := h
    cases hcfg : repo_config_for_url sub.url config with
    | none =>
      simp only [hcfg] at h
      injection h with h2
      rw [← h2] at hit
      exact Option.noConfusion hit
    | some eff =>
      simp only [hcfg] at h
      injection h with h2
      rw [← h2] at hit
      injection hit with h3
      exact ⟨subCreateEntry config missing ek eu sub eff, h3.symm,
        subCreateEntry_ref config missing ek eu sub eff⟩

theorem planForSubs_block (checker : Option Checker) (config : Config)
    (missing : List String) (ek : Option String) (eu : String)
    (subs : List (Issue × Option String)) (items : List PlanItem)
    (h : planForSubs checker config missing ek eu subs = .ok items) :
    ∀ it ∈ items, ∃ ce, it = PlanItem.issue ce ∧
      ce.github_ref ∈ subs.map (fun p => p.1.url) := by
  induction subs generalizing items with
  | nil =>
    replace h : (.ok [] : Except String (List PlanItem)) = .ok items := h
    injection h with h2
    intro it hit
    rw [← h2] at hit
    exact absurd hit (List.not_mem_nil it)
  | cons p rest ih =>
    obtain ⟨sub, sk⟩ := p
    replace h : ((planForSub checker config missing ek eu sub sk) >>= fun item =>
        (planForSubs checker config missing ek eu rest) >>= fun others =>
        (.ok (match item with
              | some it => it :: others
              | none => others) : Except String (List PlanItem))) = .ok items := h
    rw [exBind_eq_ok] at h
    obtain ⟨item, hps, h⟩ := h
    rw [exBind_eq_ok] at h
    obtain ⟨others, hrest, h⟩ := h
    injection h with h2
    intro it hit
    rw [← h2] at hit
    have htail : it ∈ others →
        ∃ ce, it = PlanItem.issue ce ∧
          ce.github_ref ∈ ((sub, sk) :: rest).map (fun p => p.1.url) := by
      intro h3
      obtain ⟨ce, hce, hm3⟩ := ih others hrest it h3
      exact ⟨ce, hce, List.mem_cons_of_mem _ hm3⟩
    cases item with
    | none => exact htail hit
    | some it0 =>
      rcases List.mem_cons.mp hit with h3 | h3
      · obtain ⟨ce, hce, hr⟩ :=
          planForSub_ref checker config missing ek eu sub sk (some it0) hps it0 rfl
        exact ⟨ce, h3 ▸ hce, by rw [List.map_cons]; exact hr ▸ List.mem_cons_self _ _⟩
      · exact htail h3

theorem planForGroup_block (checker : Option Checker) (config : Config)
    (missing : List String) (entry : ScanEntry) (items : List PlanItem)
    (h : planForGroup checker config missing entry = .ok items) :
    groupBlockSpec entry items := by
  replace h : (match entry.jira_key with
    | some key =>
      (migratedEntry checker entry.epic key) >>= fun e =>
      (planForSubs checker config missing entry.jira_key entry.epic.url
        entry.sub_issues) >>= fun subItems =>
      (.ok (PlanItem.issue e :: subItems) : Except String (List PlanItem))
    | none =>
      match repo_config_for_url entry.epic.url config with
      | none => (.ok [] : Except String (List PlanItem))
      | some effective =>
        (planForSubs checker config missing entry.jira_key entry.epic.url
          entry.sub_issues) >>= fun subItems =>
        .ok (PlanItem.issue (epicCreateEntry config missing entry.epic effective)
          :: subItems)) = .ok items := h
  cases hk : entry.jira_key with
  | some key =>
    simp only [hk] at h
    rw [exBind_eq_ok] at h
    obtain ⟨e, hme, h⟩ := h
    rw [exBind_eq_ok] at h
    obtain ⟨subItems, hsubs, h⟩ := h
    injection h with h2
    refine Or.inr ⟨e, subItems, h2.symm, migratedEntry_ref checker entry.epic key e hme,
      ?_, ?_⟩
    · intro hknone
      rw [hk] at hknone
      exact Option.noConfusion hknone
    · exact planForSubs_block checker config missing (some key) entry.epic.url
        entry.sub_issues subItems hsubs
  | none =>
    simp only [hk] at h
    cases hcfg : repo_config_for_url entry.epic.url config with
    | none =>
      simp only [hcfg] at h
      injection h with h2
      exact Or.inl h2.symm
    | some effective =>
      simp only [hcfg] at h
      rw [exBind_eq_ok] at h
      obtain ⟨subItems, hsubs, h⟩ := h
      injection h with h2
      refine Or.inr ⟨epicCreateEntry config missing entry.epic effective, subItems,
        h2.symm, epicCreateEntry_ref config missing entry.epic effective,
        fun _ => epicCreateEntry_type config missing entry.epic effective, ?_⟩
      exact planForSubs_block checker config missing none entry.epic.url
        entry.sub_issues subItems hsubs

theorem build_plan_blocks (checker : Option Checker) (config : Config)
    (missing : List String) (scan : List ScanEntry) (items : List PlanItem)
    (h : build_plan checker scan config missing = .ok items) :
    ∃ blocks, items = blocks.flatten ∧
      List.Forall₂ groupBlockSpec scan blocks := by
  induction scan generalizing items with
  | nil =>
    replace h : (.ok [] : Except String (List PlanItem)) = .ok items := h
    injection h with h2
    exact ⟨[], h2.symm, List.Forall₂.nil⟩
  | cons entry rest ih =>
    replace h : ((planForGroup checker config missing entry) >>= fun its =>
        (build_plan checker rest config missing) >>= fun others =>
        (.ok (its ++ others) : Except String (List PlanItem))) = .ok items := h
    rw [exBind_eq_ok] at h
    obtain ⟨its, hg, h⟩ := h
    rw [exBind_eq_ok] at h
    obtain ⟨others, hb, h⟩ := h
    injection h with h2
    obtain ⟨blocks, hfl, hfa⟩ := ih others hb
    refine ⟨its :: blocks, ?_, List.Forall₂.cons
      (planForGroup_block checker config missing entry its hg) hfa⟩
    rw [← h2, hfl]
    rfl

theorem mainLoop_blocks (checker : Option Checker) (config : Config)
    (missing : List String)
    (fetched : List (RepoConfig × List (Issue × List Issue)))
    (plan : List PlanItem)
    (h : mainLoop checker config missing fetched = .ok plan) :
    ∃ blocks, plan = blocks.flatten ∧
      List.Forall₂ groupBlockSpec
        ((fetched.map (fun rc => scan_repo rc.2)).flatten) blocks := by
  induction fetched generalizing plan with
  | nil =>
    replace h : (.ok [] : Except String (List PlanItem)) = .ok plan := h
    injection h with h2
    exact ⟨[], h2.symm, List.Forall₂.nil⟩
  | cons rc rest ih =>
    obtain ⟨rcfg, groups⟩ := rc
    replace h : ((build_plan checker (scan_repo groups) config missing) >>= fun p =>
        (mainLoop checker config missing rest) >>= fun others =>
        (.ok (p ++ others) : Except String (List PlanItem))) = .ok plan := h
    rw [exBind_eq_ok] at h
    obtain ⟨p, hb, h⟩ := h
    rw [exBind_eq_ok] at h
    obtain ⟨others, hm, h⟩ := h
    injection h with h2
    obtain ⟨blocks1, hfl1, hfa1⟩ :=
      build_plan_blocks checker config missing (scan_repo groups) p hb
    obtain ⟨blocks2, hfl2, hfa2⟩ := ih others hm
    refine ⟨blocks1 ++ blocks2, ?_, ?_⟩
    · rw [← h2, hfl1, hfl2, List.flatten_append]
    · show List.Forall₂ groupBlockSpec
        ((((rcfg, groups) :: rest).map (fun rc => scan_repo rc.2)).flatten)
        (blocks1 ++ blocks2)
      rw [List.map_cons, List.flatten_cons]
      exact forall2_app hfa1 hfa2

/-- C4: plan ordering invariant.  Every successfully assembled plan splits
into a field-option part followed by an issue part: the field part holds
only `create_field_option` entries and the issue part only issue entries,
so all field-option entries precede all issue entries; and the issue part
is the in-order concatenation of one block per retained scanned group (in
fetch order), each block either empty or the group's top-level entry —
referencing the epic's URL, and of type `Epic` whenever the epic is not
yet migrated — immediately followed by its children's entries, each
referencing one of that group's sub-issue URLs. -/
theorem C4_plan_ordering (checker : Option Checker) (config : Config)
    (create_components : Bool) (existing : List String)
    (fetched : List (RepoConfig × List (Issue × List Issue)))
    (plan : List PlanItem)
    (hp : main_plan checker config create_components existing fetched = .ok plan) :
    ∃ fieldPart issuePart,
      plan = fieldPart ++ issuePart ∧
      (∀ it ∈ fieldPart, ∃ f v, it = PlanItem.fieldOption f v) ∧
      (∀ it ∈ issuePart, ∃ e, it = PlanItem.issue e) ∧
      ∃ blocks, issuePart = blocks.flatten ∧
        List.Forall₂ groupBlockSpec
          ((fetched.map (fun rc => scan_repo rc.2)).flatten) blocks := by
  replace hp : ((mainLoop checker config
      (if create_components ∧ find_missing_components config.repos existing ≠ []
       then [] else find_missing_components config.repos existing) fetched) >>=
      fun plans =>
      (.ok ((if create_components ∧
            find_missing_components config.repos existing ≠ []
          then build_field_plan (find_missing_components config.repos existing)
          else []) ++ plans) : Except String (List PlanItem))) = .ok plan := hp
  rw [exBind_eq_ok] at hp
  obtain ⟨plans, hm, hp⟩ := hp
  injection hp with hp2
  obtain ⟨blocks, hfl, hfa⟩ := mainLoop_blocks checker config _ fetched plans hm
  refine ⟨_, plans, hp2.symm, ?_, ?_, blocks, hfl, hfa⟩
  · intro it hit
    by_cases hc : (create_components : Prop) ∧
        find_missing_components config.repos existing ≠ []
    · rw [if_pos hc] at hit
      replace hit : it ∈ (sortStr (find_missing_components config.repos existing)).map
        (fun v => PlanItem.fieldOption ("Scylla Components") v) := hit
      obtain ⟨v, _, hfv⟩ := List.mem_map.mp hit
      exact ⟨"Scylla Components", v, hfv.symm⟩
    · rw [if_neg hc] at hit
      exact absurd hit (List.not_mem_nil it)
  · intro it hit
    rw [hfl] at hit
    obtain ⟨blk, hblk, hitb⟩ := List.mem_flatten.mp hit
    obtain ⟨entry, hspec⟩ := forall2_mem_right hfa hblk
    rcases hspec with hnil | ⟨e, children, hshape, _, _, hch⟩
    · rw [hnil] at hitb
      exact absurd hitb (List.not_mem_nil it)
    · rw [hshape] at hitb
      rcases List.mem_cons.mp hitb with h3 | h3
      · exact ⟨e, h3⟩
      · obtain ⟨ce, hce, _⟩ := hch it h3
        exact ⟨ce, hce⟩

/-- C4 witness input: one repo, one open unmigrated epic with one
child. -/
def epicC4 : Issue :=
  { number := 10, title := "Big epic", body := none,
    url := "https://github.com/o/r/issues/10", state := "OPEN",
    issue_type := some "Epic" }

/-- The single child of the C4 witness epic. -/
def subC4 : Issue :=
  { number := 11, title := "Child", body := none,
    url := "https://github.com/o/r/issues/11", state := "OPEN",
    issue_type := none }

/-- C4 witness repo configuration. -/
def repoC4 : RepoConfig :=
  { github := "o/r", jira_pref := "P", scylla_components := "Comp", rules := [],
    github_title_strip := none }

/-- C4 witness configuration. -/
def cfgC4 : Config :=
  { jira_project := "PRJ", repos := [repoC4], type_mapping := [],
    default_worktype := none, github_title_strip := none }

/-- C4 witness fetch result. -/
def fetchedC4 : List (RepoConfig × List (Issue × List Issue)) :=
  [(repoC4, [(epicC4, [subC4])])]

/-- The plan the C4 witness input assembles. -/
def planC4 : List PlanItem :=
  [ .issue (epicCreateEntry cfgC4 [("Comp")] epicC4 repoC4),
    .issue (subCreateEntry cfgC4 [("Comp")] none (epicC4.url) subC4 repoC4) ]

/-- Witness for C4 at a concrete fetch result: the plan assembles and
satisfies the ordering decomposition. -/
theorem C4_plan_ordering_witness :
    main_plan none cfgC4 false [] fetchedC4 = .ok planC4 ∧
    (∃ fieldPart issuePart,
      planC4 = fieldPart ++ issuePart ∧
      (∀ it ∈ fieldPart, ∃ f v, it = PlanItem.fieldOption f v) ∧
      (∀ it ∈ issuePart, ∃ e, it = PlanItem.issue e) ∧
      ∃ blocks, issuePart = blocks.flatten ∧
        List.Forall₂ groupBlockSpec
          ((fetchedC4.map (fun rc => scan_repo rc.2)).flatten) blocks) :=
  ⟨by decide,
   C4_plan_ordering none cfgC4 false [] fetchedC4 planC4 (by decide)⟩

end JiraSync
